import Mathlib

/-!
Shallow embedding of the shm-go single-producer/single-consumer shared-memory
ring: the ReadWriteCloser buffer operations (GetReadBuffer, SendReadBuffer,
GetWriteBuffer, SendWriteBuffer) and the stream operations (Read, Write,
ReadFrom, WriteTo) layered on them.

Semantics are sequential (interference-free): an atomic load observes the
current state, a compare-and-swap whose expected value matches succeeds, and
a semaphore wait taken while its guarding condition holds suspends the
operation (no peer runs to change the condition), modelled by a dedicated
wait result. A semaphore post is an increment of the token count.
-/

namespace Shm

/-- Error values observable from the operations: io.EOF, io.ErrClosedPipe,
ErrInvalidSharedMemory and ErrInvalidBuffer from the source, plus a generic
code for foreign errors produced by an io.Reader source or io.Writer sink. -/
inductive GoError where
  | eof
  | closedPipe
  | invalidSharedMemory
  | invalidBuffer
  | generic (code : Nat)
deriving DecidableEq

/-- One ring slot (sharedBlock): the header fields Next, Prev, Size,
DoneRead, DoneWrite and the per-block flag bytes, together with the payload
bytes that follow the header in memory. -/
structure SharedBlock where
  Next : Nat
  Prev : Nat
  Size : Nat
  DoneRead : Nat
  DoneWrite : Nat
  Flags : List Nat
  Data : List Nat
deriving DecidableEq

/-- The shared header (sharedMem): the four ring pointers, the two semaphore
token counts, the two layout constants, followed by the block array. -/
structure SharedMem where
  ReadStart : Nat
  ReadEnd : Nat
  WriteStart : Nat
  WriteEnd : Nat
  SemAvail : Nat
  SemSignal : Nat
  BlockCount : Nat
  BlockSize : Nat
  blocks : List SharedBlock
deriving DecidableEq

/-- The block produced by an out-of-range block-array access. The Go source
would read mapped memory past the block array; the model reads zeroes, so in
particular the Done flags of such a block are 0. -/
def defaultBlock : SharedBlock :=
  { Next := 0, Prev := 0, Size := 0, DoneRead := 0, DoneWrite := 0,
    Flags := [], Data := [] }

/-- The address computation blocks + blockIndex * fullBlockSize, as a lookup
in the block array. -/
def SharedMem.block (m : SharedMem) (i : Nat) : SharedBlock :=
  m.blocks.getD i defaultBlock

/-- Store a block back at index i. The Go code mutates the block in place
through a pointer; the model rebuilds the array (a no-op out of range). -/
def SharedMem.setBlock (m : SharedMem) (i : Nat) (b : SharedBlock) : SharedMem :=
  { m with blocks := m.blocks.set i b }

def eofFlagIndex : Nat := 0

def eofFlagMask : Nat := 0x01

/-- buf.Flags[eofFlagIndex] |= eofFlagMask -/
def setEOFFlag (flags : List Nat) : List Nat :=
  flags.set eofFlagIndex (flags.getD eofFlagIndex 0 ||| eofFlagMask)

/-- buf.Flags[eofFlagIndex] &^= eofFlagMask (clear bit 0 of flag byte 0) -/
def clearEOFFlag (flags : List Nat) : List Nat :=
  flags.set eofFlagIndex (flags.getD eofFlagIndex 0 &&& 0xFE)

/-- Does the flag byte array carry the EOF bit (bit 0 of byte 0)? -/
def hasEOFFlag (flags : List Nat) : Bool :=
  flags.getD eofFlagIndex 0 &&& eofFlagMask != 0

/-- A buffer lease (Buffer): the index of the block it covers (the block
back-pointer of the source), the direction tag, the payload view with its
capacity, and the flag bytes of the block. -/
structure Buffer where
  blockIndex : Nat
  write : Bool
  Data : List Nat
  cap : Nat
  Flags : List Nat
deriving DecidableEq

/-- One simplex endpoint: the process-private closed flag and the ring it
operates on. For a simplex, readShared and writeShared of the source point
at the same ring, modelled by the single field shared. -/
structure ReadWriteCloser where
  closed : Bool
  shared : SharedMem
deriving DecidableEq

/-- Close: CAS the closed flag 0 to 1; idempotent; the munmap succeeds. -/
def Close (rw : ReadWriteCloser) : ReadWriteCloser × Option GoError :=
  if rw.closed then (rw, none) else ({ rw with closed := true }, none)

/-- Result of an acquire operation: a lease plus the updated ring, a
suspension on a semaphore, or an error. -/
inductive GetResult where
  | ok (buf : Buffer) (m : SharedMem)
  | wait
  | err (e : GoError)
deriving DecidableEq

/-- GetReadBuffer: fail if closed; load ReadStart and validate it; suspend
on SemSignal while ReadStart equals WriteEnd (empty ring); otherwise CAS
ReadStart to block.Next and return a read lease whose payload is the block
payload truncated to block.Size with capacity BlockSize. -/
def GetReadBuffer (rw : ReadWriteCloser) : GetResult :=
  if rw.closed then .err .closedPipe
  else
    let m := rw.shared
    let blockIndex := m.ReadStart
    if blockIndex > m.BlockCount then .err .invalidSharedMemory
    else
      let block := m.block blockIndex
      if blockIndex = m.WriteEnd then .wait
      else
        .ok { blockIndex := blockIndex, write := false,
              Data := block.Data.take block.Size,
              cap := m.BlockSize,
              Flags := block.Flags }
           { m with ReadStart := block.Next }

/-- GetWriteBuffer: fail if closed; load WriteStart and validate it; suspend
on SemAvail while block.Next equals ReadEnd (full ring); otherwise CAS
WriteStart to block.Next and return a write lease with empty payload of
capacity BlockSize. -/
def GetWriteBuffer (rw : ReadWriteCloser) : GetResult :=
  if rw.closed then .err .closedPipe
  else
    let m := rw.shared
    let blockIndex := m.WriteStart
    if blockIndex > m.BlockCount then .err .invalidSharedMemory
    else
      let block := m.block blockIndex
      if block.Next = m.ReadEnd then .wait
      else
        .ok { blockIndex := blockIndex, write := true,
              Data := [],
              cap := m.BlockSize,
              Flags := block.Flags }
           { m with WriteStart := block.Next }

/-- The release-side coalescing loop of SendReadBuffer: starting from
ReadEnd, validate the index, CAS the DoneRead flag of the block there from
1 to 0 (stop with success when the flag is not 1), CAS ReadEnd to
block.Next, and post SemAvail when block.Prev equals WriteStart. The fuel
argument bounds the iterations; none means fuel ran out, which the callers
rule out (each iteration clears one set DoneRead flag). -/
def sendReadLoop : Nat → SharedMem → Option (SharedMem × Option GoError)
  | 0, _ => none
  | fuel + 1, m =>
    let blockIndex := m.ReadEnd
    if blockIndex > m.BlockCount then some (m, some .invalidSharedMemory)
    else
      let block := m.block blockIndex
      if block.DoneRead = 1 then
        let m1 := m.setBlock blockIndex { block with DoneRead := 0 }
        let m2 := { m1 with ReadEnd := block.Next }
        let m3 := if block.Prev = m2.WriteStart
                  then { m2 with SemAvail := m2.SemAvail + 1 } else m2
        sendReadLoop fuel m3
      else
        some (m, none)

/-- The state after the store steps of SendReadBuffer: DoneRead of the
released block set to 1. -/
def markRead (m : SharedMem) (buf : Buffer) : SharedMem :=
  m.setBlock buf.blockIndex { m.block buf.blockIndex with DoneRead := 1 }

/-- SendReadBuffer: fail if closed; reject a write lease; store 1 into the
DoneRead flag of the released block; run the coalescing loop that advances
ReadEnd and wakes the writer. -/
def SendReadBuffer (rw : ReadWriteCloser) (buf : Buffer) :
    Option (SharedMem × Option GoError) :=
  if rw.closed then some (rw.shared, some .closedPipe)
  else if buf.write then some (rw.shared, some .invalidBuffer)
  else
    let m := markRead rw.shared buf
    sendReadLoop (m.blocks.length + 1) m

/-- The release-side coalescing loop of SendWriteBuffer: starting from
WriteEnd, validate the index, CAS the DoneWrite flag of the block there
from 1 to 0 (stop with success when the flag is not 1), CAS WriteEnd to
block.Next, and post SemSignal when the old WriteEnd equals ReadStart. -/
def sendWriteLoop : Nat → SharedMem → Option (SharedMem × Option GoError)
  | 0, _ => none
  | fuel + 1, m =>
    let blockIndex := m.WriteEnd
    if blockIndex > m.BlockCount then some (m, some .invalidSharedMemory)
    else
      let block := m.block blockIndex
      if block.DoneWrite = 1 then
        let m1 := m.setBlock blockIndex { block with DoneWrite := 0 }
        let m2 := { m1 with WriteEnd := block.Next }
        let m3 := if blockIndex = m2.ReadStart
                  then { m2 with SemSignal := m2.SemSignal + 1 } else m2
        sendWriteLoop fuel m3
      else
        some (m, none)

/-- The state after the store steps of SendWriteBuffer: Size of the released
block set to the handle payload length, and DoneWrite set to 1. The payload
bytes and flag bytes were produced by the caller through the shared-memory
slices of the handle; the sequential model writes them back here. -/
def markWrite (m : SharedMem) (buf : Buffer) : SharedMem :=
  let block := m.block buf.blockIndex
  m.setBlock buf.blockIndex
    { block with
      Size := buf.Data.length,
      Data := buf.Data ++ block.Data.drop buf.Data.length,
      Flags := buf.Flags,
      DoneWrite := 1 }

/-- SendWriteBuffer: fail if closed; reject a read lease; store the handle
payload length into Size and 1 into DoneWrite; run the coalescing loop that
advances WriteEnd and wakes the reader. Every return carries
n = len(buf.Data). -/
def SendWriteBuffer (rw : ReadWriteCloser) (buf : Buffer) :
    Option (Nat × SharedMem × Option GoError) :=
  if rw.closed then some (0, rw.shared, some .closedPipe)
  else if !buf.write then some (0, rw.shared, some .invalidBuffer)
  else
    let m := markWrite rw.shared buf
    (sendWriteLoop (m.blocks.length + 1) m).map
      (fun r => (buf.Data.length, r.1, r.2))

/-- Result of the stream Read: the byte count, the destination bytes after
the copy, the error, and the ring afterwards; or a suspension. -/
inductive ReadResult where
  | ok (n : Nat) (p : List Nat) (e : Option GoError) (m : SharedMem)
  | wait
  | nofuel
deriving DecidableEq

/-- Read: acquire a read buffer, copy its payload to the front of p, record
the EOF bit, release the buffer, and return the count with io.EOF when the
EOF bit was set. -/
def Read (rw : ReadWriteCloser) (p : List Nat) : ReadResult :=
  match GetReadBuffer rw with
  | .err e => .ok 0 p (some e) rw.shared
  | .wait => .wait
  | .ok buf m =>
    let n := min p.length buf.Data.length
    let p1 := buf.Data.take n ++ p.drop n
    let isEOF := hasEOFFlag buf.Flags
    match SendReadBuffer { rw with shared := m } buf with
    | none => .nofuel
    | some (m1, some e) => .ok n p1 (some e) m1
    | some (m1, none) => .ok n p1 (if isEOF then some .eof else none) m1

/-- Result of the stream Write: the byte count, the error, and the ring
afterwards; or a suspension. -/
inductive WriteResult where
  | ok (n : Nat) (e : Option GoError) (m : SharedMem)
  | wait
  | nofuel
deriving DecidableEq

/-- Write: acquire a write buffer, copy min(cap, len p) bytes of p into it,
set the EOF flag bit, release the buffer, and return the count. -/
def Write (rw : ReadWriteCloser) (p : List Nat) : WriteResult :=
  match GetWriteBuffer rw with
  | .err e => .ok 0 (some e) rw.shared
  | .wait => .wait
  | .ok buf m =>
    let n := min buf.cap p.length
    let buf1 := { buf with Data := p.take n, Flags := setEOFFlag buf.Flags }
    match SendWriteBuffer { rw with shared := m } buf1 with
    | none => .nofuel
    | some (_, m1, e) => .ok n e m1

/-- Result of ReadFrom and WriteTo: total byte count, error, ring
afterwards; or a suspension (of the ring side or of the modelled source or
sink). -/
inductive StreamResult where
  | ok (n : Nat) (e : Option GoError) (m : SharedMem)
  | wait
  | nofuel
deriving DecidableEq

/-- The loop of ReadFrom. The io.Reader source is modelled by the list of
results its successive Read calls return: each element is the bytes put
into the buffer and the accompanying error (GoError.eof for io.EOF). An
exhausted list models a source whose next Read blocks. -/
def readFromLoop (rw : ReadWriteCloser)
    (src : List (List Nat × Option GoError)) (n : Nat) : StreamResult :=
  match GetWriteBuffer rw with
  | .err e => .ok n (some e) rw.shared
  | .wait => .wait
  | .ok buf m =>
    match src with
    | [] => .wait
    | (chunk, rerr) :: rest =>
      let nn := min buf.cap chunk.length
      let n1 := n + nn
      let buf1 := { buf with
                    Data := chunk.take nn,
                    Flags := if rerr = some .eof then setEOFFlag buf.Flags
                             else clearEOFFlag buf.Flags }
      match SendWriteBuffer { rw with shared := m } buf1 with
      | none => .nofuel
      | some (_, m1, some _) => .ok n1 rerr m1
      | some (_, m1, none) =>
        match rerr with
        | some .eof => .ok n1 none m1
        | some e => .ok n1 (some e) m1
        | none => readFromLoop { rw with shared := m1 } rest n1

/-- ReadFrom: loop acquiring write buffers, filling each from the next
source read, setting the EOF bit exactly when the source returned io.EOF,
and releasing; a release error returns the source read error instead. -/
def ReadFrom (rw : ReadWriteCloser)
    (src : List (List Nat × Option GoError)) : StreamResult :=
  readFromLoop rw src 0

/-- The loop of WriteTo. The io.Writer sink is modelled by the list of
results its successive Write calls return. An exhausted list models a sink
whose next Write blocks. -/
def writeToLoop (rw : ReadWriteCloser)
    (sink : List (Nat × Option GoError)) (n : Nat) : StreamResult :=
  match GetReadBuffer rw with
  | .err e => .ok n (some e) rw.shared
  | .wait => .wait
  | .ok buf m =>
    match sink with
    | [] => .wait
    | (nn, werr) :: rest =>
      let n1 := n + nn
      let isEOF := hasEOFFlag buf.Flags
      match SendReadBuffer { rw with shared := m } buf with
      | none => .nofuel
      | some (m1, some putErr) => .ok n1 (some putErr) m1
      | some (m1, none) =>
        if werr.isSome || isEOF then .ok n1 werr m1
        else writeToLoop { rw with shared := m1 } rest n1

/-- WriteTo: loop acquiring read buffers, writing each payload to the sink,
observing the EOF bit, and releasing; return on sink error or EOF. -/
def WriteTo (rw : ReadWriteCloser)
    (sink : List (Nat × Option GoError)) : StreamResult :=
  writeToLoop rw sink 0

/-- The number of blocks whose DoneWrite flag is 1. -/
def countDoneWrite (m : SharedMem) : Nat :=
  m.blocks.countP (fun b => b.DoneWrite = 1)

/-- The number of blocks whose DoneRead flag is 1. -/
def countDoneRead (m : SharedMem) : Nat :=
  m.blocks.countP (fun b => b.DoneRead = 1)

/-- One step of the ring walk: the Next index of the block at x. -/
def stepNext (m : SharedMem) (x : Nat) : Nat :=
  (m.block x).Next

/-- The chain of indices the writer-release coalescing loop visits:
t-fold Next iteration from WriteEnd. -/
def chainW (m : SharedMem) (t : Nat) : Nat :=
  (stepNext m)^[t] m.WriteEnd

/-- The chain of indices the reader-release coalescing loop visits:
t-fold Next iteration from ReadEnd. -/
def chainR (m : SharedMem) (t : Nat) : Nat :=
  (stepNext m)^[t] m.ReadEnd

/-- Modelled from the spec: the segment factory (CreateSimplex and the
shared_mem initialization) is not among the given source files. Per §6 of
the specification it links Prev and Next circularly over the blockCount
blocks, sets all four ring pointers to 0, clears DoneRead and DoneWrite,
and initializes both semaphores with 0 tokens; payload bytes and flag bytes
of a fresh mapping are zero. The flag byte count is layout-defined; the
model uses 8, which no operation here depends on beyond byte 0. -/
def initSimplex (blockCount blockSize : Nat) : SharedMem :=
  { ReadStart := 0, ReadEnd := 0, WriteStart := 0, WriteEnd := 0,
    SemAvail := 0, SemSignal := 0,
    BlockCount := blockCount, BlockSize := blockSize,
    blocks := (List.range blockCount).map (fun i =>
      { Next := (i + 1) % blockCount,
        Prev := (i + blockCount - 1) % blockCount,
        Size := 0, DoneRead := 0, DoneWrite := 0,
        Flags := List.replicate 8 0,
        Data := List.replicate blockSize 0 }) }

/-- Fields of the ring that a release-side coalescing loop never changes:
both Start pointers, the layout constants, the block-array length, and for
every block its Next, Prev, Size, payload and flag bytes. -/
def releasePreserved (m m' : SharedMem) : Prop :=
  m'.ReadStart = m.ReadStart ∧ m'.WriteStart = m.WriteStart ∧
  m'.BlockCount = m.BlockCount ∧ m'.BlockSize = m.BlockSize ∧
  m'.blocks.length = m.blocks.length ∧
  ∀ i, (m'.block i).Next = (m.block i).Next ∧
    (m'.block i).Prev = (m.block i).Prev ∧
    (m'.block i).Size = (m.block i).Size ∧
    (m'.block i).Data = (m.block i).Data ∧
    (m'.block i).Flags = (m.block i).Flags

/-- The state used to refute the C8 example: a well-formed two-block ring
except that a peer has stored WriteStart = BlockCount + 1. ReadStart is
valid and the ring is non-empty for the reader. -/
def corruptWriteStartMem : SharedMem :=
  { ReadStart := 0, ReadEnd := 0, WriteStart := 3, WriteEnd := 1,
    SemAvail := 0, SemSignal := 0,
    BlockCount := 2, BlockSize := 0,
    blocks := [
      { Next := 1, Prev := 1, Size := 0, DoneRead := 0, DoneWrite := 0,
        Flags := [0], Data := [] },
      { Next := 0, Prev := 0, Size := 0, DoneRead := 0, DoneWrite := 0,
        Flags := [0], Data := [] }] }

/-- A ring used to exercise the read-lease shape: one published block of
Size 5 (WriteEnd already advanced past block 0). -/
def c3ReadMem : SharedMem :=
  { initSimplex 4 64 with
    WriteEnd := 1
    blocks := (initSimplex 4 64).blocks.set 0
      { (initSimplex 4 64).block 0 with Size := 5 } }

/-- A fresh writer endpoint on a 4-block ring of 64-byte blocks. -/
def c3WriteRW : ReadWriteCloser := { closed := false, shared := initSimplex 4 64 }

/-- A reader endpoint on the ring with one published block. -/
def c3ReadRW : ReadWriteCloser := { closed := false, shared := c3ReadMem }

/-- A write lease on block 1 carrying three payload bytes. -/
def c3Buf : Buffer :=
  { blockIndex := 1, write := true, Data := [7, 8, 9], cap := 64,
    Flags := List.replicate 8 0 }

/-- The fresh simplex ring with blockCount 4 and blockSize 64, written as an
explicit record (the evaluation of initSimplex 4 64). -/
def ring4 : SharedMem :=
  { ReadStart := 0, ReadEnd := 0, WriteStart := 0, WriteEnd := 0,
    SemAvail := 0, SemSignal := 0, BlockCount := 4, BlockSize := 64,
    blocks := [
      { Next := 1, Prev := 3, Size := 0, DoneRead := 0, DoneWrite := 0,
        Flags := List.replicate 8 0, Data := List.replicate 64 0 },
      { Next := 2, Prev := 0, Size := 0, DoneRead := 0, DoneWrite := 0,
        Flags := List.replicate 8 0, Data := List.replicate 64 0 },
      { Next := 3, Prev := 1, Size := 0, DoneRead := 0, DoneWrite := 0,
        Flags := List.replicate 8 0, Data := List.replicate 64 0 },
      { Next := 0, Prev := 2, Size := 0, DoneRead := 0, DoneWrite := 0,
        Flags := List.replicate 8 0, Data := List.replicate 64 0 }] }

/-- The ring after Write published payload P into block 0 of the fresh
4-block ring: WriteStart and WriteEnd advanced to 1, SemSignal posted once,
block 0 carrying Size, the EOF flag bit and the payload. -/
def postWriteRing (P : List Nat) : SharedMem :=
  { ReadStart := 0, ReadEnd := 0, WriteStart := 1, WriteEnd := 1,
    SemAvail := 0, SemSignal := 1, BlockCount := 4, BlockSize := 64,
    blocks := [
      { Next := 1, Prev := 3, Size := P.length, DoneRead := 0, DoneWrite := 0,
        Flags := 1 :: List.replicate 7 0,
        Data := P ++ List.drop P.length (List.replicate 64 0) },
      { Next := 2, Prev := 0, Size := 0, DoneRead := 0, DoneWrite := 0,
        Flags := List.replicate 8 0, Data := List.replicate 64 0 },
      { Next := 3, Prev := 1, Size := 0, DoneRead := 0, DoneWrite := 0,
        Flags := List.replicate 8 0, Data := List.replicate 64 0 },
      { Next := 0, Prev := 2, Size := 0, DoneRead := 0, DoneWrite := 0,
        Flags := List.replicate 8 0, Data := List.replicate 64 0 }] }

/-- The ring after the reader consumed and released block 0 of the
post-write ring: ReadStart and ReadEnd advanced to 1. -/
def postReadRing (P : List Nat) : SharedMem :=
  { postWriteRing P with ReadStart := 1, ReadEnd := 1 }


/-- A 3-block ring used to exercise writer-release coalescing: block 1 was
already finished out of order (DoneWrite 1), the reader is parked at
ReadStart = 0, WriteEnd = 0. -/
def c6Mem : SharedMem :=
  { ReadStart := 0, ReadEnd := 0, WriteStart := 2, WriteEnd := 0,
    SemAvail := 0, SemSignal := 0, BlockCount := 3, BlockSize := 0,
    blocks := [
      { Next := 1, Prev := 2, Size := 0, DoneRead := 0, DoneWrite := 0,
        Flags := [0], Data := [] },
      { Next := 2, Prev := 0, Size := 0, DoneRead := 0, DoneWrite := 1,
        Flags := [0], Data := [] },
      { Next := 0, Prev := 1, Size := 0, DoneRead := 0, DoneWrite := 0,
        Flags := [0], Data := [] }] }

/-- A write lease on block 0 of the 3-block coalescing ring. -/
def c6Buf : Buffer :=
  { blockIndex := 0, write := true, Data := [], cap := 0, Flags := [0] }

/-- A 3-block ring used to exercise reader-release coalescing: block 1 was
already consumed out of order (DoneRead 1), the writer is parked with
WriteStart = 2 = Prev of block 0, ReadEnd = 0. -/
def c7Mem : SharedMem :=
  { ReadStart := 0, ReadEnd := 0, WriteStart := 2, WriteEnd := 0,
    SemAvail := 0, SemSignal := 0, BlockCount := 3, BlockSize := 0,
    blocks := [
      { Next := 1, Prev := 2, Size := 0, DoneRead := 0, DoneWrite := 0,
        Flags := [0], Data := [] },
      { Next := 2, Prev := 0, Size := 0, DoneRead := 1, DoneWrite := 0,
        Flags := [0], Data := [] },
      { Next := 0, Prev := 1, Size := 0, DoneRead := 0, DoneWrite := 0,
        Flags := [0], Data := [] }] }

/-- A read lease on block 0 of the 3-block coalescing ring. -/
def c7Buf : Buffer :=
  { blockIndex := 0, write := false, Data := [], cap := 0, Flags := [0] }

section Lemmas

theorem blocks_length_setBlock (m : SharedMem) (i : Nat) (b : SharedBlock) :
    (m.setBlock i b).blocks.length = m.blocks.length := by
  simp [SharedMem.setBlock]

theorem block_setBlock_self (m : SharedMem) (i : Nat) (b : SharedBlock)
    (h : i < m.blocks.length) : (m.setBlock i b).block i = b := by
  simp [SharedMem.setBlock, SharedMem.block, List.getD_eq_getElem?_getD,
    List.getElem?_set_self, h]

theorem block_setBlock_ne (m : SharedMem) (i j : Nat) (b : SharedBlock)
    (h : j ≠ i) : (m.setBlock i b).block j = m.block j := by
  simp [SharedMem.setBlock, SharedMem.block, List.getD_eq_getElem?_getD,
    List.getElem?_set_ne (by omega : i ≠ j)]

theorem block_out_of_range (m : SharedMem) (i : Nat)
    (h : m.blocks.length ≤ i) : m.block i = defaultBlock := by
  simp [SharedMem.block, List.getD_eq_getElem?_getD, List.getElem?_eq_none h]

/-- A block whose DoneWrite flag is 1 lies inside the block array. -/
theorem doneWrite_in_range (m : SharedMem) (i : Nat)
    (h : (m.block i).DoneWrite = 1) : i < m.blocks.length := by
  by_contra hge
  rw [block_out_of_range m i (by omega)] at h
  simp [defaultBlock] at h

/-- A block whose DoneRead flag is 1 lies inside the block array. -/
theorem doneRead_in_range (m : SharedMem) (i : Nat)
    (h : (m.block i).DoneRead = 1) : i < m.blocks.length := by
  by_contra hge
  rw [block_out_of_range m i (by omega)] at h
  simp [defaultBlock] at h

theorem countP_set_lt {α : Type} (p : α → Bool) (d : α) :
    ∀ (l : List α) (i : Nat) (b : α), i < l.length → p (l.getD i d) = true →
      p b = false → (l.set i b).countP p < l.countP p
  | [], i, b, h, _, _ => by simp at h
  | a :: l, 0, b, _, hp, hb => by
      simp [List.getD] at hp
      simp [List.set, List.countP_cons, hp, hb]
  | a :: l, i + 1, b, h, hp, hb => by
      simp at h
      have ih := countP_set_lt p d l i b h (by simpa [List.getD] using hp) hb
      simp [List.set, List.countP_cons]
      omega

theorem releasePreserved_refl (m : SharedMem) : releasePreserved m m := by
  refine ⟨rfl, rfl, rfl, rfl, rfl, fun i => ⟨rfl, rfl, rfl, rfl, rfl⟩⟩

theorem releasePreserved_trans {m1 m2 m3 : SharedMem}
    (h12 : releasePreserved m1 m2) (h23 : releasePreserved m2 m3) :
    releasePreserved m1 m3 := by
  obtain ⟨a1, b1, c1, d1, e1, f1⟩ := h12
  obtain ⟨a2, b2, c2, d2, e2, f2⟩ := h23
  refine ⟨a2.trans a1, b2.trans b1, c2.trans c1, d2.trans d1, e2.trans e1,
    fun i => ?_⟩
  obtain ⟨n1, p1, s1, t1, g1⟩ := f1 i
  obtain ⟨n2, p2, s2, t2, g2⟩ := f2 i
  exact ⟨n2.trans n1, p2.trans p1, s2.trans s1, t2.trans t1, g2.trans g1⟩

/-- Rewriting only a Done flag of one block preserves every other field of
every block. -/
theorem block_fields_after_done (m : SharedMem) (j : Nat) (b : SharedBlock)
    (hNext : b.Next = (m.block j).Next) (hPrev : b.Prev = (m.block j).Prev)
    (hSize : b.Size = (m.block j).Size) (hData : b.Data = (m.block j).Data)
    (hFlags : b.Flags = (m.block j).Flags) (i : Nat) :
    ((m.setBlock j b).block i).Next = (m.block i).Next ∧
    ((m.setBlock j b).block i).Prev = (m.block i).Prev ∧
    ((m.setBlock j b).block i).Size = (m.block i).Size ∧
    ((m.setBlock j b).block i).Data = (m.block i).Data ∧
    ((m.setBlock j b).block i).Flags = (m.block i).Flags := by
  by_cases hij : i = j
  · subst hij
    by_cases hlt : i < m.blocks.length
    · rw [block_setBlock_self m i b hlt]
      exact ⟨hNext, hPrev, hSize, hData, hFlags⟩
    · have hset : m.blocks.set i b = m.blocks :=
        List.set_eq_of_length_le (by omega)
      have hm : m.setBlock i b = m := by
        unfold SharedMem.setBlock; rw [hset]
      rw [hm]
      exact ⟨rfl, rfl, rfl, rfl, rfl⟩
  · rw [block_setBlock_ne m j i b hij]
    exact ⟨rfl, rfl, rfl, rfl, rfl⟩

/-- The writer-release loop changes only WriteEnd, SemSignal and DoneWrite
flags. -/
theorem sendWriteLoop_preserves : ∀ (fuel : Nat) (m m' : SharedMem)
    (e : Option GoError), sendWriteLoop fuel m = some (m', e) →
    releasePreserved m m' ∧ m'.ReadEnd = m.ReadEnd ∧ m'.SemAvail = m.SemAvail ∧
    ∀ i, (m'.block i).DoneRead = (m.block i).DoneRead := by
  intro fuel
  induction fuel with
  | zero => intro m m' e h; simp [sendWriteLoop] at h
  | succ fuel ih =>
    intro m m' e h
    simp only [sendWriteLoop] at h
    split at h
    · rcases h with ⟨rfl, rfl⟩
      exact ⟨releasePreserved_refl m, rfl, rfl, fun i => rfl⟩
    · split at h
      · rename_i hdw
        have hstep := ih _ _ _ h
        set j := m.WriteEnd with hj
        have hin : j < m.blocks.length := doneWrite_in_range m j hdw
        have hfields := block_fields_after_done m j
          { m.block j with DoneWrite := 0 } rfl rfl rfl rfl rfl
        have hdr : ∀ i,
            (((m.setBlock j { m.block j with DoneWrite := 0 }).block i)).DoneRead =
            (m.block i).DoneRead := by
          intro i
          by_cases hij : i = j
          · rw [hij, block_setBlock_self m j _ hin]
          · rw [block_setBlock_ne m j i _ hij]
        obtain ⟨hp, hre, hsa, hdrr⟩ := hstep
        constructor
        · refine releasePreserved_trans ?_ hp
          constructor
          · split <;> rfl
          constructor
          · split <;> rfl
          constructor
          · split <;> rfl
          constructor
          · split <;> rfl
          constructor
          · split <;> simp [SharedMem.setBlock]
          · intro i
            have := hfields i
            split <;> exact this
        · refine ⟨?_, ?_, ?_⟩
          · rw [hre]; split <;> rfl
          · rw [hsa]; split <;> rfl
          · intro i
            rw [hdrr i]
            have := hdr i
            split <;> exact this
      · rcases h with ⟨rfl, rfl⟩
        exact ⟨releasePreserved_refl m, rfl, rfl, fun i => rfl⟩

/-- The reader-release loop changes only ReadEnd, SemAvail and DoneRead
flags. -/
theorem sendReadLoop_preserves : ∀ (fuel : Nat) (m m' : SharedMem)
    (e : Option GoError), sendReadLoop fuel m = some (m', e) →
    releasePreserved m m' ∧ m'.WriteEnd = m.WriteEnd ∧
    m'.SemSignal = m.SemSignal ∧
    ∀ i, (m'.block i).DoneWrite = (m.block i).DoneWrite := by
  intro fuel
  induction fuel with
  | zero => intro m m' e h; simp [sendReadLoop] at h
  | succ fuel ih =>
    intro m m' e h
    simp only [sendReadLoop] at h
    split at h
    · rcases h with ⟨rfl, rfl⟩
      exact ⟨releasePreserved_refl m, rfl, rfl, fun i => rfl⟩
    · split at h
      · rename_i hdr
        have hstep := ih _ _ _ h
        set j := m.ReadEnd with hj
        have hin : j < m.blocks.length := doneRead_in_range m j hdr
        have hfields := block_fields_after_done m j
          { m.block j with DoneRead := 0 } rfl rfl rfl rfl rfl
        have hdw : ∀ i,
            (((m.setBlock j { m.block j with DoneRead := 0 }).block i)).DoneWrite =
            (m.block i).DoneWrite := by
          intro i
          by_cases hij : i = j
          · rw [hij, block_setBlock_self m j _ hin]
          · rw [block_setBlock_ne m j i _ hij]
        obtain ⟨hp, hwe, hss, hdww⟩ := hstep
        constructor
        · refine releasePreserved_trans ?_ hp
          constructor
          · split <;> rfl
          constructor
          · split <;> rfl
          constructor
          · split <;> rfl
          constructor
          · split <;> rfl
          constructor
          · split <;> simp [SharedMem.setBlock]
          · intro i
            have := hfields i
            split <;> exact this
        · refine ⟨?_, ?_, ?_⟩
          · rw [hwe]; split <;> rfl
          · rw [hss]; split <;> rfl
          · intro i
            rw [hdww i]
            have := hdw i
            split <;> exact this
      · rcases h with ⟨rfl, rfl⟩
        exact ⟨releasePreserved_refl m, rfl, rfl, fun i => rfl⟩

/-- With fuel exceeding the number of set DoneWrite flags, the writer-release
loop terminates (each recursing iteration clears one flag). -/
theorem sendWriteLoop_total : ∀ (fuel : Nat) (m : SharedMem),
    countDoneWrite m < fuel → ∃ r, sendWriteLoop fuel m = some r := by
  intro fuel
  induction fuel with
  | zero => intro m h; omega
  | succ fuel ih =>
    intro m h
    simp only [sendWriteLoop]
    split
    · exact ⟨_, rfl⟩
    · split
      · rename_i hdw
        set j := m.WriteEnd with hj
        have hin : j < m.blocks.length := doneWrite_in_range m j hdw
        have hlt : countDoneWrite
            (m.setBlock j { m.block j with DoneWrite := 0 }) <
            countDoneWrite m := by
          unfold countDoneWrite SharedMem.setBlock
          apply countP_set_lt _ defaultBlock _ _ _ hin
          · simpa [SharedMem.block] using hdw
          · simp
        have hcount : ∀ (x : SharedMem), x.blocks =
            (m.setBlock j { m.block j with DoneWrite := 0 }).blocks →
            countDoneWrite x < fuel := by
          intro x hx
          unfold countDoneWrite at hlt h ⊢
          rw [hx]
          omega
        split
        · exact ih _ (hcount _ rfl)
        · exact ih _ (hcount _ rfl)
      · exact ⟨_, rfl⟩

/-- With fuel exceeding the number of set DoneRead flags, the reader-release
loop terminates. -/
theorem sendReadLoop_total : ∀ (fuel : Nat) (m : SharedMem),
    countDoneRead m < fuel → ∃ r, sendReadLoop fuel m = some r := by
  intro fuel
  induction fuel with
  | zero => intro m h; omega
  | succ fuel ih =>
    intro m h
    simp only [sendReadLoop]
    split
    · exact ⟨_, rfl⟩
    · split
      · rename_i hdr
        set j := m.ReadEnd with hj
        have hin : j < m.blocks.length := doneRead_in_range m j hdr
        have hlt : countDoneRead
            (m.setBlock j { m.block j with DoneRead := 0 }) <
            countDoneRead m := by
          unfold countDoneRead SharedMem.setBlock
          apply countP_set_lt _ defaultBlock _ _ _ hin
          · simpa [SharedMem.block] using hdr
          · simp
        have hcount : ∀ (x : SharedMem), x.blocks =
            (m.setBlock j { m.block j with DoneRead := 0 }).blocks →
            countDoneRead x < fuel := by
          intro x hx
          unfold countDoneRead at hlt h ⊢
          rw [hx]
          omega
        split
        · exact ih _ (hcount _ rfl)
        · exact ih _ (hcount _ rfl)
      · exact ⟨_, rfl⟩

/-- Setting the EOF bit through a handle makes the EOF test positive,
provided the flag byte array is non-empty. -/
theorem hasEOFFlag_setEOFFlag (fl : List Nat) (h : 0 < fl.length) :
    hasEOFFlag (setEOFFlag fl) = true := by
  simp only [hasEOFFlag, setEOFFlag, eofFlagIndex, eofFlagMask, bne_iff_ne,
    ne_eq, decide_eq_true_eq]
  have hg : (fl.set 0 (fl.getD 0 0 ||| 1)).getD 0 0 = fl.getD 0 0 ||| 1 := by
    simp [List.getD_eq_getElem?_getD, List.getElem?_set_self, h]
  rw [hg, Nat.and_one_is_mod]
  have h1 : (fl.getD 0 0 ||| 1) % 2 = 1 := by simp
  omega

/-- The successful branch of GetWriteBuffer, in closed form. -/
theorem getWriteBuffer_ok (rw : ReadWriteCloser) (hcl : rw.closed = false)
    (hv : rw.shared.WriteStart ≤ rw.shared.BlockCount)
    (hfull : (rw.shared.block rw.shared.WriteStart).Next ≠ rw.shared.ReadEnd) :
    GetWriteBuffer rw = .ok
      { blockIndex := rw.shared.WriteStart, write := true, Data := [],
        cap := rw.shared.BlockSize,
        Flags := (rw.shared.block rw.shared.WriteStart).Flags }
      { rw.shared with
        WriteStart := (rw.shared.block rw.shared.WriteStart).Next } := by
  unfold GetWriteBuffer
  rw [if_neg (by simp [hcl]), if_neg (by omega), if_neg hfull]

/-- The successful branch of GetReadBuffer, in closed form. -/
theorem getReadBuffer_ok (rw : ReadWriteCloser) (hcl : rw.closed = false)
    (hv : rw.shared.ReadStart ≤ rw.shared.BlockCount)
    (hne : rw.shared.ReadStart ≠ rw.shared.WriteEnd) :
    GetReadBuffer rw = .ok
      { blockIndex := rw.shared.ReadStart, write := false,
        Data := (rw.shared.block rw.shared.ReadStart).Data.take
                  (rw.shared.block rw.shared.ReadStart).Size,
        cap := rw.shared.BlockSize,
        Flags := (rw.shared.block rw.shared.ReadStart).Flags }
      { rw.shared with
        ReadStart := (rw.shared.block rw.shared.ReadStart).Next } := by
  unfold GetReadBuffer
  rw [if_neg (by simp [hcl]), if_neg (by omega), if_neg hne]

/-- The block stored by the mark step of SendWriteBuffer. -/
theorem markWrite_block_self (m : SharedMem) (buf : Buffer)
    (h : buf.blockIndex < m.blocks.length) :
    (markWrite m buf).block buf.blockIndex =
      { m.block buf.blockIndex with
        Size := buf.Data.length,
        Data := buf.Data ++ (m.block buf.blockIndex).Data.drop buf.Data.length,
        Flags := buf.Flags,
        DoneWrite := 1 } := by
  unfold markWrite
  exact block_setBlock_self m buf.blockIndex _ h

/-- SendWriteBuffer on an open endpoint with a write lease always succeeds
as an Option, returns the lease payload length, and its final ring is the
marked ring transformed by the coalescing loop (which preserves the fields
in releasePreserved). -/
theorem sendWriteBuffer_ok (rw' : ReadWriteCloser) (buf : Buffer)
    (hcl : rw'.closed = false) (hbw : buf.write = true) :
    ∃ m1 e, SendWriteBuffer rw' buf = some (buf.Data.length, m1, e) ∧
      releasePreserved (markWrite rw'.shared buf) m1 := by
  obtain ⟨⟨m1, e⟩, hloop⟩ := sendWriteLoop_total
    ((markWrite rw'.shared buf).blocks.length + 1) (markWrite rw'.shared buf)
    (Nat.lt_succ_of_le (List.countP_le_length _))
  refine ⟨m1, e, ?_, (sendWriteLoop_preserves _ _ _ _ hloop).1⟩
  unfold SendWriteBuffer
  rw [if_neg (by simp [hcl]), if_neg (by simp [hbw])]
  dsimp only
  rw [hloop]
  rfl

/-- SendReadBuffer on an open endpoint with a read lease always succeeds as
an Option, and its final ring is the marked ring transformed by the
coalescing loop. -/
theorem sendReadBuffer_ok (rw' : ReadWriteCloser) (buf : Buffer)
    (hcl : rw'.closed = false) (hbw : buf.write = false) :
    ∃ m1 e, SendReadBuffer rw' buf = some (m1, e) ∧
      releasePreserved (markRead rw'.shared buf) m1 := by
  obtain ⟨⟨m1, e⟩, hloop⟩ := sendReadLoop_total
    ((markRead rw'.shared buf).blocks.length + 1) (markRead rw'.shared buf)
    (Nat.lt_succ_of_le (List.countP_le_length _))
  refine ⟨m1, e, ?_, (sendReadLoop_preserves _ _ _ _ hloop).1⟩
  unfold SendReadBuffer
  rw [if_neg (by simp [hcl]), if_neg (by simp [hbw])]
  exact hloop

/-- SendWriteBuffer on an open endpoint with a write lease fails with
InvalidSharedMemory when the shared WriteEnd pointer is corrupt, returning
the marked ring. -/
theorem sendWriteBuffer_err (rw' : ReadWriteCloser) (buf : Buffer)
    (hcl : rw'.closed = false) (hbw : buf.write = true)
    (hbad : rw'.shared.WriteEnd > rw'.shared.BlockCount) :
    SendWriteBuffer rw' buf = some (buf.Data.length,
      markWrite rw'.shared buf, some .invalidSharedMemory) := by
  unfold SendWriteBuffer
  rw [if_neg (by simp [hcl]), if_neg (by simp [hbw])]
  have hwe : (markWrite rw'.shared buf).WriteEnd = rw'.shared.WriteEnd := rfl
  have hbc : (markWrite rw'.shared buf).BlockCount = rw'.shared.BlockCount := rfl
  simp only [sendWriteLoop, hwe, hbc]
  rw [if_pos hbad]
  rfl

theorem ring4_eq : initSimplex 4 64 = ring4 := by decide

/-- A block at an in-range index is a member of the block array. -/
theorem block_mem (m : SharedMem) (j : Nat) (h : j < m.blocks.length) :
    m.block j ∈ m.blocks := by
  unfold SharedMem.block
  rw [List.getD_eq_getElem?_getD, List.getElem?_eq_getElem h]
  exact List.getElem_mem _

/-- If the first k iterates of f from x satisfy Q and the k-th does not,
the first k iterates are pairwise distinct (a repeat would make the chain
periodic inside Q, contradicting the exit at step k). -/
theorem iterate_no_repeat (f : Nat → Nat) (x : Nat) (Q : Nat → Prop) (k : Nat)
    (hk : ∀ t < k, Q (f^[t] x)) (hstop : ¬ Q (f^[k] x)) :
    ∀ a b, a < b → b < k → f^[a] x ≠ f^[b] x := by
  intro a b hab hbk heq
  set p := b - a with hp
  set y := f^[a] x with hy
  have hcycle : f^[p] y = y := by
    calc f^[p] y = f^[p] (f^[a] x) := by rw [hy]
      _ = f^[p + a] x := (Function.iterate_add_apply f p a x).symm
      _ = f^[b] x := by congr 1; omega
      _ = f^[a] x := heq.symm
      _ = y := hy.symm
  have hmod : ∀ s, f^[s] y = f^[s % p] y := by
    intro s
    induction s using Nat.strong_induction_on with
    | _ s ih =>
      by_cases hs : s < p
      · rw [Nat.mod_eq_of_lt hs]
      · calc f^[s] y = f^[(s - p) + p] y := by congr 1; omega
          _ = f^[s - p] (f^[p] y) := Function.iterate_add_apply f (s - p) p y
          _ = f^[s - p] y := by rw [hcycle]
          _ = f^[(s - p) % p] y := ih (s - p) (by omega)
          _ = f^[s % p] y := by rw [← Nat.mod_eq_sub_mod (by omega)]
  have hk_y : f^[k] x = f^[a + (k - a) % p] x := by
    calc f^[k] x = f^[(k - a) + a] x := by congr 1; omega
      _ = f^[k - a] y := by rw [Function.iterate_add_apply, ← hy]
      _ = f^[(k - a) % p] y := hmod _
      _ = f^[(k - a) % p + a] x := by rw [hy, ← Function.iterate_add_apply]
      _ = f^[a + (k - a) % p] x := by rw [Nat.add_comm]
  have hlt : a + (k - a) % p < k := by
    have := Nat.mod_lt (k - a) (y := p) (by omega)
    omega
  exact hstop (by rw [hk_y]; exact hk _ hlt)

/-- A finished chain of length k visits k distinct in-range blocks, so k is
at most the block count (writer side). -/
theorem chainW_bound (m : SharedMem) (k : Nat)
    (hk : ∀ t < k, (m.block (chainW m t)).DoneWrite = 1)
    (hstop : (m.block (chainW m k)).DoneWrite ≠ 1) :
    k ≤ m.blocks.length := by
  have hnr := iterate_no_repeat (stepNext m) m.WriteEnd
    (fun i => (m.block i).DoneWrite = 1) k hk hstop
  have hmaps : ∀ a ∈ Finset.range k,
      chainW m a ∈ Finset.range m.blocks.length := by
    intro a ha
    rw [Finset.mem_range] at *
    exact doneWrite_in_range _ _ (hk a ha)
  have hinj : Set.InjOn (chainW m) (Finset.range k) := by
    intro a ha b hb hab
    simp only [Finset.coe_range, Set.mem_Iio] at ha hb
    by_contra hne
    rcases Nat.lt_or_ge a b with h | h
    · exact hnr a b h hb hab
    · exact hnr b a (by omega) ha hab.symm
  have := Finset.card_le_card_of_injOn (chainW m) hmaps hinj
  simpa using this

/-- A finished chain of length k visits k distinct in-range blocks, so k is
at most the block count (reader side). -/
theorem chainR_bound (m : SharedMem) (k : Nat)
    (hk : ∀ t < k, (m.block (chainR m t)).DoneRead = 1)
    (hstop : (m.block (chainR m k)).DoneRead ≠ 1) :
    k ≤ m.blocks.length := by
  have hnr := iterate_no_repeat (stepNext m) m.ReadEnd
    (fun i => (m.block i).DoneRead = 1) k hk hstop
  have hmaps : ∀ a ∈ Finset.range k,
      chainR m a ∈ Finset.range m.blocks.length := by
    intro a ha
    rw [Finset.mem_range] at *
    exact doneRead_in_range _ _ (hk a ha)
  have hinj : Set.InjOn (chainR m) (Finset.range k) := by
    intro a ha b hb hab
    simp only [Finset.coe_range, Set.mem_Iio] at ha hb
    by_contra hne
    rcases Nat.lt_or_ge a b with h | h
    · exact hnr a b h hb hab
    · exact hnr b a (by omega) ha hab.symm
  have := Finset.card_le_card_of_injOn (chainR m) hmaps hinj
  simpa using this

/-- getD after set at the same in-range index. -/
theorem getD_set_self {α : Type} (l : List α) (i : Nat) (b d : α)
    (h : i < l.length) : (l.set i b).getD i d = b := by
  simp [List.getD_eq_getElem?_getD, List.getElem?_set_self, h]

/-- getD after set at a different index. -/
theorem getD_set_ne {α : Type} (l : List α) (i j : Nat) (b d : α)
    (h : j ≠ i) : (l.set i b).getD j d = l.getD j d := by
  simp [List.getD_eq_getElem?_getD, List.getElem?_set_ne (by omega : i ≠ j)]

/-- Peel the first element off a countP over List.range. -/
theorem countP_range_succ_shift (Q : Nat → Bool) (k : Nat) :
    (List.range (k + 1)).countP Q =
      (if Q 0 then 1 else 0) + (List.range k).countP (fun t => Q (t + 1)) := by
  rw [List.range_succ_eq_map, List.countP_cons, List.countP_map]
  have hc : List.countP (Q ∘ Nat.succ) (List.range k) =
      List.countP (fun t => Q (t + 1)) (List.range k) :=
    List.countP_congr (fun a _ => Iff.rfl)
  rw [hc]
  cases hQ : Q 0 <;> simp [hQ] <;> omega

/-- Full characterization of the writer-release coalescing loop: if the
first k blocks along the Next chain from WriteEnd are finished and the one
after them is not, the loop stops there with success, WriteEnd lands on the
first unfinished block, SemSignal is posted once for every advanced
position that equals ReadStart, and the advanced DoneWrite flags end 0. -/
theorem sendWriteLoop_chain : ∀ (k fuel : Nat) (m : SharedMem),
    (∀ t < k, (m.block (chainW m t)).DoneWrite = 1) →
    (m.block (chainW m k)).DoneWrite ≠ 1 →
    m.WriteEnd ≤ m.BlockCount →
    (∀ b ∈ m.blocks, b.Next ≤ m.BlockCount) →
    k < fuel →
    ∃ m', sendWriteLoop fuel m = some (m', none) ∧
      m'.WriteEnd = chainW m k ∧
      m'.SemSignal = m.SemSignal +
        (List.range k).countP (fun t => chainW m t = m.ReadStart) ∧
      (∀ t < k, (m'.block (chainW m t)).DoneWrite = 0) ∧
      (∀ i, (m.block i).DoneWrite = 0 → (m'.block i).DoneWrite = 0) := by
  intro k
  induction k with
  | zero =>
    intro fuel m hk hstop hWE hNext hfuel
    match fuel, hfuel with
    | fuel + 1, _ =>
      refine ⟨m, ?_, by simp [chainW], by simp,
        fun t ht => absurd ht (by omega), fun i h => h⟩
      simp only [sendWriteLoop]
      rw [if_neg (by omega)]
      rw [if_neg (by simpa [chainW] using hstop)]
  | succ k ih =>
    intro fuel m hk hstop hWE hNext hfuel
    match fuel, hfuel with
    | fuel + 1, hfuel =>
      have hdw : (m.block m.WriteEnd).DoneWrite = 1 := by
        simpa [chainW] using hk 0 (by omega)
      have hin : m.WriteEnd < m.blocks.length := doneWrite_in_range _ _ hdw
      have hnr := iterate_no_repeat (stepNext m) m.WriteEnd
        (fun i => (m.block i).DoneWrite = 1) (k + 1) hk hstop
      have key : ∀ (m3 : SharedMem),
          m3.blocks = (m.setBlock m.WriteEnd
            { m.block m.WriteEnd with DoneWrite := 0 }).blocks →
          m3.WriteEnd = (m.block m.WriteEnd).Next →
          m3.ReadStart = m.ReadStart →
          m3.BlockCount = m.BlockCount →
          ∃ m', sendWriteLoop fuel m3 = some (m', none) ∧
            m'.WriteEnd = chainW m (k + 1) ∧
            m'.SemSignal = m3.SemSignal +
              (List.range k).countP (fun t => chainW m (t + 1) = m.ReadStart) ∧
            (∀ t < k, (m'.block (chainW m (t + 1))).DoneWrite = 0) ∧
            (∀ i, ((m.setBlock m.WriteEnd
                { m.block m.WriteEnd with DoneWrite := 0 }).block i).DoneWrite = 0 →
              (m'.block i).DoneWrite = 0) := by
        intro m3 hblocks3 hWE3 hRS3 hBC3
        have hblock3 : ∀ x, m3.block x =
            (m.setBlock m.WriteEnd
              { m.block m.WriteEnd with DoneWrite := 0 }).block x :=
          fun x => congrArg (fun l => l.getD x defaultBlock) hblocks3
        have hnext3 : ∀ x, (m3.block x).Next = (m.block x).Next := by
          intro x
          rw [hblock3 x]
          exact (block_fields_after_done m m.WriteEnd
            { m.block m.WriteEnd with DoneWrite := 0 } rfl rfl rfl rfl rfl x).1
        have hstep3 : stepNext m3 = stepNext m := by
          funext x
          unfold stepNext
          exact hnext3 x
        have hchain3 : ∀ t, chainW m3 t = chainW m (t + 1) := by
          intro t
          unfold chainW
          rw [hstep3, hWE3, Function.iterate_succ_apply]
          rfl
        have hkm3 : ∀ t < k, (m3.block (chainW m3 t)).DoneWrite = 1 := by
          intro t ht
          rw [hchain3 t, hblock3]
          have hne : chainW m (t + 1) ≠ m.WriteEnd := by
            have h0 := hnr 0 (t + 1) (by omega) (by omega)
            simpa [chainW] using (Ne.symm h0)
          rw [block_setBlock_ne m m.WriteEnd (chainW m (t + 1)) _ hne]
          exact hk (t + 1) (by omega)
        have hstopm3 : (m3.block (chainW m3 k)).DoneWrite ≠ 1 := by
          rw [hchain3 k, hblock3]
          by_cases hj : chainW m (k + 1) = m.WriteEnd
          · rw [hj, block_setBlock_self _ _ _ hin]
            simp
          · rw [block_setBlock_ne _ _ _ _ hj]
            exact hstop
        have hWEm3 : m3.WriteEnd ≤ m3.BlockCount := by
          rw [hWE3, hBC3]
          exact hNext (m.block m.WriteEnd) (block_mem m _ hin)
        have hNextm3 : ∀ b ∈ m3.blocks, b.Next ≤ m3.BlockCount := by
          intro b hb
          rw [hBC3]
          rw [hblocks3] at hb
          have hb2 : b ∈ m.blocks.set m.WriteEnd
              { m.block m.WriteEnd with DoneWrite := 0 } := hb
          rcases List.mem_or_eq_of_mem_set hb2 with h | h
          · exact hNext _ h
          · subst h
            have hgoal : (m.block m.WriteEnd).Next ≤ m.BlockCount :=
              hNext (m.block m.WriteEnd) (block_mem m _ hin)
            exact hgoal
        obtain ⟨m', hloop, hwe, hss, hflags, hpres⟩ :=
          ih fuel m3 hkm3 hstopm3 hWEm3 hNextm3 (by omega)
        refine ⟨m', hloop, ?_, ?_, ?_, ?_⟩
        · rw [hwe, hchain3]
        · rw [hss]
          congr 1
          simp only [hRS3]
          apply List.countP_congr
          intro t ht
          rw [hchain3 t]
        · intro t ht
          rw [← hchain3 t]
          exact hflags t ht
        · intro i h0
          apply hpres
          rw [hblock3]
          exact h0
      by_cases hrs : m.WriteEnd = m.ReadStart
      · have hbody : sendWriteLoop (fuel + 1) m = sendWriteLoop fuel
            { ReadStart := m.ReadStart, ReadEnd := m.ReadEnd,
              WriteStart := m.WriteStart,
              WriteEnd := (m.block m.WriteEnd).Next,
              SemAvail := m.SemAvail, SemSignal := m.SemSignal + 1,
              BlockCount := m.BlockCount, BlockSize := m.BlockSize,
              blocks := m.blocks.set m.WriteEnd
                { m.block m.WriteEnd with DoneWrite := 0 } } := by
          simp only [sendWriteLoop, SharedMem.setBlock]
          rw [if_neg (by omega), if_pos hdw, if_pos hrs]
        obtain ⟨m', hloop, hwe, hss, hflags, hpres⟩ := key
            { ReadStart := m.ReadStart, ReadEnd := m.ReadEnd,
              WriteStart := m.WriteStart,
              WriteEnd := (m.block m.WriteEnd).Next,
              SemAvail := m.SemAvail, SemSignal := m.SemSignal + 1,
              BlockCount := m.BlockCount, BlockSize := m.BlockSize,
              blocks := m.blocks.set m.WriteEnd
                { m.block m.WriteEnd with DoneWrite := 0 } }
            rfl rfl rfl rfl
        refine ⟨m', by rw [hbody]; exact hloop, hwe, ?_, ?_, ?_⟩
        · rw [hss]
          try dsimp only
          rw [countP_range_succ_shift]
          try dsimp only
          have hQ0 : (decide (chainW m 0 = m.ReadStart)) = true := by
            simp [chainW, hrs]
          rw [hQ0, if_pos rfl]
          omega
        · intro t ht
          match t, ht with
          | 0, _ =>
            apply hpres
            rw [show chainW m 0 = m.WriteEnd from by simp [chainW]]
            rw [block_setBlock_self _ _ _ hin]
          | t + 1, ht => exact hflags t (by omega)
        · intro i h0
          apply hpres
          have hne : i ≠ m.WriteEnd := by
            intro he
            rw [he, hdw] at h0
            exact absurd h0 (by omega)
          rw [block_setBlock_ne _ _ _ _ hne]
          exact h0
      · have hbody : sendWriteLoop (fuel + 1) m = sendWriteLoop fuel
            { ReadStart := m.ReadStart, ReadEnd := m.ReadEnd,
              WriteStart := m.WriteStart,
              WriteEnd := (m.block m.WriteEnd).Next,
              SemAvail := m.SemAvail, SemSignal := m.SemSignal,
              BlockCount := m.BlockCount, BlockSize := m.BlockSize,
              blocks := m.blocks.set m.WriteEnd
                { m.block m.WriteEnd with DoneWrite := 0 } } := by
          simp only [sendWriteLoop, SharedMem.setBlock]
          rw [if_neg (by omega), if_pos hdw, if_neg hrs]
        obtain ⟨m', hloop, hwe, hss, hflags, hpres⟩ := key
            { ReadStart := m.ReadStart, ReadEnd := m.ReadEnd,
              WriteStart := m.WriteStart,
              WriteEnd := (m.block m.WriteEnd).Next,
              SemAvail := m.SemAvail, SemSignal := m.SemSignal,
              BlockCount := m.BlockCount, BlockSize := m.BlockSize,
              blocks := m.blocks.set m.WriteEnd
                { m.block m.WriteEnd with DoneWrite := 0 } }
            rfl rfl rfl rfl
        refine ⟨m', by rw [hbody]; exact hloop, hwe, ?_, ?_, ?_⟩
        · rw [hss]
          try dsimp only
          rw [countP_range_succ_shift]
          try dsimp only
          have hQ0 : (decide (chainW m 0 = m.ReadStart)) = false := by
            simp [chainW, hrs]
          rw [hQ0, if_neg (by simp)]
          omega
        · intro t ht
          match t, ht with
          | 0, _ =>
            apply hpres
            rw [show chainW m 0 = m.WriteEnd from by simp [chainW]]
            rw [block_setBlock_self _ _ _ hin]
          | t + 1, ht => exact hflags t (by omega)
        · intro i h0
          apply hpres
          have hne : i ≠ m.WriteEnd := by
            intro he
            rw [he, hdw] at h0
            exact absurd h0 (by omega)
          rw [block_setBlock_ne _ _ _ _ hne]
          exact h0

/-- Full characterization of the reader-release coalescing loop: ReadEnd
advances over the finished run, SemAvail is posted once for every advanced
block whose Prev equals WriteStart, and the advanced DoneRead flags end 0. -/
theorem sendReadLoop_chain : ∀ (k fuel : Nat) (m : SharedMem),
    (∀ t < k, (m.block (chainR m t)).DoneRead = 1) →
    (m.block (chainR m k)).DoneRead ≠ 1 →
    m.ReadEnd ≤ m.BlockCount →
    (∀ b ∈ m.blocks, b.Next ≤ m.BlockCount) →
    k < fuel →
    ∃ m', sendReadLoop fuel m = some (m', none) ∧
      m'.ReadEnd = chainR m k ∧
      m'.SemAvail = m.SemAvail +
        (List.range k).countP
          (fun t => (m.block (chainR m t)).Prev = m.WriteStart) ∧
      (∀ t < k, (m'.block (chainR m t)).DoneRead = 0) ∧
      (∀ i, (m.block i).DoneRead = 0 → (m'.block i).DoneRead = 0) := by
  intro k
  induction k with
  | zero =>
    intro fuel m hk hstop hRE hNext hfuel
    match fuel, hfuel with
    | fuel + 1, _ =>
      refine ⟨m, ?_, by simp [chainR], by simp,
        fun t ht => absurd ht (by omega), fun i h => h⟩
      simp only [sendReadLoop]
      rw [if_neg (by omega)]
      rw [if_neg (by simpa [chainR] using hstop)]
  | succ k ih =>
    intro fuel m hk hstop hRE hNext hfuel
    match fuel, hfuel with
    | fuel + 1, hfuel =>
      have hdr : (m.block m.ReadEnd).DoneRead = 1 := by
        simpa [chainR] using hk 0 (by omega)
      have hin : m.ReadEnd < m.blocks.length := doneRead_in_range _ _ hdr
      have hnr := iterate_no_repeat (stepNext m) m.ReadEnd
        (fun i => (m.block i).DoneRead = 1) (k + 1) hk hstop
      have key : ∀ (m3 : SharedMem),
          m3.blocks = (m.setBlock m.ReadEnd
            { m.block m.ReadEnd with DoneRead := 0 }).blocks →
          m3.ReadEnd = (m.block m.ReadEnd).Next →
          m3.WriteStart = m.WriteStart →
          m3.BlockCount = m.BlockCount →
          ∃ m', sendReadLoop fuel m3 = some (m', none) ∧
            m'.ReadEnd = chainR m (k + 1) ∧
            m'.SemAvail = m3.SemAvail +
              (List.range k).countP
                (fun t => (m.block (chainR m (t + 1))).Prev = m.WriteStart) ∧
            (∀ t < k, (m'.block (chainR m (t + 1))).DoneRead = 0) ∧
            (∀ i, ((m.setBlock m.ReadEnd
                { m.block m.ReadEnd with DoneRead := 0 }).block i).DoneRead = 0 →
              (m'.block i).DoneRead = 0) := by
        intro m3 hblocks3 hRE3 hWS3 hBC3
        have hblock3 : ∀ x, m3.block x =
            (m.setBlock m.ReadEnd
              { m.block m.ReadEnd with DoneRead := 0 }).block x :=
          fun x => congrArg (fun l => l.getD x defaultBlock) hblocks3
        have hnext3 : ∀ x, (m3.block x).Next = (m.block x).Next := by
          intro x
          rw [hblock3 x]
          exact (block_fields_after_done m m.ReadEnd
            { m.block m.ReadEnd with DoneRead := 0 } rfl rfl rfl rfl rfl x).1
        have hprev3 : ∀ x, (m3.block x).Prev = (m.block x).Prev := by
          intro x
          rw [hblock3 x]
          exact (block_fields_after_done m m.ReadEnd
            { m.block m.ReadEnd with DoneRead := 0 } rfl rfl rfl rfl rfl x).2.1
        have hstep3 : stepNext m3 = stepNext m := by
          funext x
          unfold stepNext
          exact hnext3 x
        have hchain3 : ∀ t, chainR m3 t = chainR m (t + 1) := by
          intro t
          unfold chainR
          rw [hstep3, hRE3, Function.iterate_succ_apply]
          rfl
        have hkm3 : ∀ t < k, (m3.block (chainR m3 t)).DoneRead = 1 := by
          intro t ht
          rw [hchain3 t, hblock3]
          have hne : chainR m (t + 1) ≠ m.ReadEnd := by
            have h0 := hnr 0 (t + 1) (by omega) (by omega)
            simpa [chainR] using (Ne.symm h0)
          rw [block_setBlock_ne m m.ReadEnd (chainR m (t + 1)) _ hne]
          exact hk (t + 1) (by omega)
        have hstopm3 : (m3.block (chainR m3 k)).DoneRead ≠ 1 := by
          rw [hchain3 k, hblock3]
          by_cases hj : chainR m (k + 1) = m.ReadEnd
          · rw [hj, block_setBlock_self _ _ _ hin]
            simp
          · rw [block_setBlock_ne _ _ _ _ hj]
            exact hstop
        have hREm3 : m3.ReadEnd ≤ m3.BlockCount := by
          rw [hRE3, hBC3]
          exact hNext (m.block m.ReadEnd) (block_mem m _ hin)
        have hNextm3 : ∀ b ∈ m3.blocks, b.Next ≤ m3.BlockCount := by
          intro b hb
          rw [hBC3]
          rw [hblocks3] at hb
          have hb2 : b ∈ m.blocks.set m.ReadEnd
              { m.block m.ReadEnd with DoneRead := 0 } := hb
          rcases List.mem_or_eq_of_mem_set hb2 with h | h
          · exact hNext _ h
          · subst h
            have hgoal : (m.block m.ReadEnd).Next ≤ m.BlockCount :=
              hNext (m.block m.ReadEnd) (block_mem m _ hin)
            exact hgoal
        obtain ⟨m', hloop, hre, hsa, hflags, hpres⟩ :=
          ih fuel m3 hkm3 hstopm3 hREm3 hNextm3 (by omega)
        refine ⟨m', hloop, ?_, ?_, ?_, ?_⟩
        · rw [hre, hchain3]
        · rw [hsa]
          congr 1
          apply List.countP_congr
          intro t ht
          rw [hchain3 t, hprev3, hWS3]
        · intro t ht
          rw [← hchain3 t]
          exact hflags t ht
        · intro i h0
          apply hpres
          rw [hblock3]
          exact h0
      by_cases hrs : (m.block m.ReadEnd).Prev = m.WriteStart
      · have hbody : sendReadLoop (fuel + 1) m = sendReadLoop fuel
            { ReadStart := m.ReadStart, ReadEnd := (m.block m.ReadEnd).Next,
              WriteStart := m.WriteStart,
              WriteEnd := m.WriteEnd,
              SemAvail := m.SemAvail + 1, SemSignal := m.SemSignal,
              BlockCount := m.BlockCount, BlockSize := m.BlockSize,
              blocks := m.blocks.set m.ReadEnd
                { m.block m.ReadEnd with DoneRead := 0 } } := by
          simp only [sendReadLoop, SharedMem.setBlock]
          rw [if_neg (by omega), if_pos hdr, if_pos hrs]
        obtain ⟨m', hloop, hre, hsa, hflags, hpres⟩ := key
            { ReadStart := m.ReadStart, ReadEnd := (m.block m.ReadEnd).Next,
              WriteStart := m.WriteStart,
              WriteEnd := m.WriteEnd,
              SemAvail := m.SemAvail + 1, SemSignal := m.SemSignal,
              BlockCount := m.BlockCount, BlockSize := m.BlockSize,
              blocks := m.blocks.set m.ReadEnd
                { m.block m.ReadEnd with DoneRead := 0 } }
            rfl rfl rfl rfl
        refine ⟨m', by rw [hbody]; exact hloop, hre, ?_, ?_, ?_⟩
        · rw [hsa]
          try dsimp only
          rw [countP_range_succ_shift]
          try dsimp only
          have hQ0 : (decide ((m.block (chainR m 0)).Prev = m.WriteStart)) = true := by
            simp [chainR, hrs]
          rw [hQ0, if_pos rfl]
          omega
        · intro t ht
          match t, ht with
          | 0, _ =>
            apply hpres
            rw [show chainR m 0 = m.ReadEnd from by simp [chainR]]
            rw [block_setBlock_self _ _ _ hin]
          | t + 1, ht => exact hflags t (by omega)
        · intro i h0
          apply hpres
          have hne : i ≠ m.ReadEnd := by
            intro he
            rw [he, hdr] at h0
            exact absurd h0 (by omega)
          rw [block_setBlock_ne _ _ _ _ hne]
          exact h0
      · have hbody : sendReadLoop (fuel + 1) m = sendReadLoop fuel
            { ReadStart := m.ReadStart, ReadEnd := (m.block m.ReadEnd).Next,
              WriteStart := m.WriteStart,
              WriteEnd := m.WriteEnd,
              SemAvail := m.SemAvail, SemSignal := m.SemSignal,
              BlockCount := m.BlockCount, BlockSize := m.BlockSize,
              blocks := m.blocks.set m.ReadEnd
                { m.block m.ReadEnd with DoneRead := 0 } } := by
          simp only [sendReadLoop, SharedMem.setBlock]
          rw [if_neg (by omega), if_pos hdr, if_neg hrs]
        obtain ⟨m', hloop, hre, hsa, hflags, hpres⟩ := key
            { ReadStart := m.ReadStart, ReadEnd := (m.block m.ReadEnd).Next,
              WriteStart := m.WriteStart,
              WriteEnd := m.WriteEnd,
              SemAvail := m.SemAvail, SemSignal := m.SemSignal,
              BlockCount := m.BlockCount, BlockSize := m.BlockSize,
              blocks := m.blocks.set m.ReadEnd
                { m.block m.ReadEnd with DoneRead := 0 } }
            rfl rfl rfl rfl
        refine ⟨m', by rw [hbody]; exact hloop, hre, ?_, ?_, ?_⟩
        · rw [hsa]
          try dsimp only
          rw [countP_range_succ_shift]
          try dsimp only
          have hQ0 : (decide ((m.block (chainR m 0)).Prev = m.WriteStart)) = false := by
            simp [chainR, hrs]
          rw [hQ0, if_neg (by simp)]
          omega
        · intro t ht
          match t, ht with
          | 0, _ =>
            apply hpres
            rw [show chainR m 0 = m.ReadEnd from by simp [chainR]]
            rw [block_setBlock_self _ _ _ hin]
          | t + 1, ht => exact hflags t (by omega)
        · intro i h0
          apply hpres
          have hne : i ≠ m.ReadEnd := by
            intro he
            rw [he, hdr] at h0
            exact absurd h0 (by omega)
          rw [block_setBlock_ne _ _ _ _ hne]
          exact h0

end Lemmas

/-- C9: after Close has set the closed flag of an endpoint, every one of the
four buffer operations and every stream operation fails with ClosedPipe, and
the shared ring state is returned unchanged. -/
theorem closedEndpointRejection (rw : ReadWriteCloser) (buf bufw : Buffer)
    (p : List Nat) (src : List (List Nat × Option GoError))
    (sink : List (Nat × Option GoError)) :
    (Close rw).1.closed = true ∧
    (Close rw).1.shared = rw.shared ∧
    GetReadBuffer (Close rw).1 = .err .closedPipe ∧
    GetWriteBuffer (Close rw).1 = .err .closedPipe ∧
    SendReadBuffer (Close rw).1 buf = some (rw.shared, some .closedPipe) ∧
    SendWriteBuffer (Close rw).1 bufw = some (0, rw.shared, some .closedPipe) ∧
    Read (Close rw).1 p = .ok 0 p (some .closedPipe) rw.shared ∧
    Write (Close rw).1 p = .ok 0 (some .closedPipe) rw.shared ∧
    ReadFrom (Close rw).1 src = .ok 0 (some .closedPipe) rw.shared ∧
    WriteTo (Close rw).1 sink = .ok 0 (some .closedPipe) rw.shared := by
  have hc : (Close rw).1.closed = true ∧ (Close rw).1.shared = rw.shared := by
    unfold Close; split <;> simp_all
  refine ⟨hc.1, hc.2, ?_, ?_, ?_, ?_, ?_, ?_, ?_, ?_⟩ <;>
    simp [GetReadBuffer, GetWriteBuffer, SendReadBuffer, SendWriteBuffer,
      Read, Write, ReadFrom, readFromLoop, WriteTo, writeToLoop, hc.1, hc.2]

/-- C4: on an open endpoint with a valid WriteStart index, GetWriteBuffer
suspends on SemAvail (retrying) exactly when block.Next equals ReadEnd, the
full condition; otherwise the CAS moves WriteStart to block.Next and the
call returns a write lease on that block. -/
theorem getWriteBufferProtocol (rw : ReadWriteCloser)
    (hcl : rw.closed = false)
    (hv : rw.shared.WriteStart ≤ rw.shared.BlockCount) :
    (GetWriteBuffer rw = .wait ↔
      (rw.shared.block rw.shared.WriteStart).Next = rw.shared.ReadEnd) ∧
    ((rw.shared.block rw.shared.WriteStart).Next ≠ rw.shared.ReadEnd →
      GetWriteBuffer rw =
        .ok { blockIndex := rw.shared.WriteStart, write := true, Data := [],
              cap := rw.shared.BlockSize,
              Flags := (rw.shared.block rw.shared.WriteStart).Flags }
           { rw.shared with
             WriteStart := (rw.shared.block rw.shared.WriteStart).Next }) := by
  unfold GetWriteBuffer
  rw [if_neg (by simp [hcl]), if_neg (by omega)]
  constructor
  · constructor
    · intro h
      by_contra hne
      rw [if_neg hne] at h
      exact GetResult.noConfusion h
    · intro h; rw [if_pos h]
  · intro hne; rw [if_neg hne]

/-- C5: on an open endpoint with a valid ReadStart index, GetReadBuffer
suspends on SemSignal (retrying) exactly when ReadStart equals WriteEnd, the
empty condition; otherwise the CAS moves ReadStart to block.Next and the
call returns a read lease whose payload is the block payload truncated to
its Size. -/
theorem getReadBufferProtocol (rw : ReadWriteCloser)
    (hcl : rw.closed = false)
    (hv : rw.shared.ReadStart ≤ rw.shared.BlockCount) :
    (GetReadBuffer rw = .wait ↔ rw.shared.ReadStart = rw.shared.WriteEnd) ∧
    (rw.shared.ReadStart ≠ rw.shared.WriteEnd →
      GetReadBuffer rw =
        .ok { blockIndex := rw.shared.ReadStart, write := false,
              Data := (rw.shared.block rw.shared.ReadStart).Data.take
                        (rw.shared.block rw.shared.ReadStart).Size,
              cap := rw.shared.BlockSize,
              Flags := (rw.shared.block rw.shared.ReadStart).Flags }
           { rw.shared with
             ReadStart := (rw.shared.block rw.shared.ReadStart).Next }) := by
  unfold GetReadBuffer
  rw [if_neg (by simp [hcl]), if_neg (by omega)]
  constructor
  · constructor
    · intro h
      by_contra hne
      rw [if_neg hne] at h
      exact GetResult.noConfusion h
    · intro h; rw [if_pos h]
  · intro hne; rw [if_neg hne]

/-- Witness for C4 at a concrete input: a fresh 4-block ring is not full, so
GetWriteBuffer returns the lease on block 0 and moves WriteStart to 1. -/
theorem getWriteBufferProtocolWitness :
    GetWriteBuffer { closed := false, shared := initSimplex 4 64 } =
      .ok { blockIndex := 0, write := true, Data := [], cap := 64,
            Flags := List.replicate 8 0 }
         { initSimplex 4 64 with WriteStart := 1 } := by
  have h := (getWriteBufferProtocol { closed := false, shared := initSimplex 4 64 }
    rfl (by decide)).2 (by decide)
  rw [h]; decide

/-- Witness for C5 at a concrete input: on a 4-block ring with WriteEnd = 1,
the reader is not parked and GetReadBuffer leases block 0 (whose Size is 0),
moving ReadStart to 1. -/
theorem getReadBufferProtocolWitness :
    GetReadBuffer { closed := false, shared := { initSimplex 4 64 with WriteEnd := 1 } } =
      .ok { blockIndex := 0, write := false, Data := [], cap := 64, Flags := List.replicate 8 0 }
         { initSimplex 4 64 with WriteEnd := 1, ReadStart := 1 } := by
  have h := (getReadBufferProtocol
    { closed := false, shared := { initSimplex 4 64 with WriteEnd := 1 } }
    rfl (by decide)).2 (by decide)
  rw [h]; decide

/-- C8 as stated is false at this input: the peer stored
WriteStart = BlockCount + 1 = 3, ReadStart is valid and the ring is
non-empty, and the next GetReadBuffer of the reader does not return
InvalidSharedMemory (it returns a lease; GetReadBuffer validates ReadStart,
not WriteStart). -/
theorem corruptIndexClaimCounterexample :
    (corruptWriteStartMem.WriteStart = corruptWriteStartMem.BlockCount + 1) ∧
    GetReadBuffer { closed := false, shared := corruptWriteStartMem } ≠
      .err .invalidSharedMemory := by decide

/-- C8 (amended): each of the four operations fails with
InvalidSharedMemory exactly on its own ring pointer being strictly greater
than BlockCount (ReadStart for GetReadBuffer, WriteStart for GetWriteBuffer,
ReadEnd for SendReadBuffer, WriteEnd for SendWriteBuffer); an index equal to
BlockCount is not rejected; a corrupt WriteStart = BlockCount + 1 makes the
next GetWriteBuffer of the writer fail, while a reader with a valid
ReadStart is unaffected. -/
theorem corruptIndexDetection (rw : ReadWriteCloser) (buf bufw : Buffer)
    (hcl : rw.closed = false) :
    (rw.shared.ReadStart > rw.shared.BlockCount →
      GetReadBuffer rw = .err .invalidSharedMemory) ∧
    (rw.shared.WriteStart > rw.shared.BlockCount →
      GetWriteBuffer rw = .err .invalidSharedMemory) ∧
    (buf.write = false → rw.shared.ReadEnd > rw.shared.BlockCount →
      SendReadBuffer rw buf =
        some (markRead rw.shared buf, some .invalidSharedMemory)) ∧
    (bufw.write = true → rw.shared.WriteEnd > rw.shared.BlockCount →
      SendWriteBuffer rw bufw =
        some (bufw.Data.length, markWrite rw.shared bufw,
              some .invalidSharedMemory)) ∧
    (rw.shared.ReadStart = rw.shared.BlockCount →
      GetReadBuffer rw ≠ .err .invalidSharedMemory) ∧
    (rw.shared.WriteStart = rw.shared.BlockCount →
      GetWriteBuffer rw ≠ .err .invalidSharedMemory) ∧
    (rw.shared.WriteStart = rw.shared.BlockCount + 1 →
      GetWriteBuffer rw = .err .invalidSharedMemory) ∧
    (rw.shared.ReadStart ≤ rw.shared.BlockCount →
      GetReadBuffer rw ≠ .err .invalidSharedMemory) := by
  refine ⟨?_, ?_, ?_, ?_, ?_, ?_, ?_, ?_⟩
  · intro h; unfold GetReadBuffer
    rw [if_neg (by simp [hcl]), if_pos h]
  · intro h; unfold GetWriteBuffer
    rw [if_neg (by simp [hcl]), if_pos h]
  · intro hb h
    unfold SendReadBuffer
    rw [if_neg (by simp [hcl]), if_neg (by simp [hb])]
    have hre : (markRead rw.shared buf).ReadEnd = rw.shared.ReadEnd := rfl
    have hbc : (markRead rw.shared buf).BlockCount = rw.shared.BlockCount := rfl
    simp only [sendReadLoop, hre, hbc]
    rw [if_pos h]
  · intro hb h
    unfold SendWriteBuffer
    rw [if_neg (by simp [hcl]), if_neg (by simp [hb])]
    have hwe : (markWrite rw.shared bufw).WriteEnd = rw.shared.WriteEnd := rfl
    have hbc : (markWrite rw.shared bufw).BlockCount = rw.shared.BlockCount := rfl
    simp only [sendWriteLoop, hwe, hbc]
    rw [if_pos h]
    rfl
  · intro h; unfold GetReadBuffer
    rw [if_neg (by simp [hcl]), if_neg (by omega)]
    dsimp only
    split <;> simp
  · intro h; unfold GetWriteBuffer
    rw [if_neg (by simp [hcl]), if_neg (by omega)]
    dsimp only
    split <;> simp
  · intro h; unfold GetWriteBuffer
    rw [if_neg (by simp [hcl]), if_pos (by omega)]
  · intro h; unfold GetReadBuffer
    rw [if_neg (by simp [hcl]), if_neg (by omega)]
    dsimp only
    split <;> simp

/-- Witness for C8 at a concrete input: with the corrupt
WriteStart = BlockCount + 1 stored by a peer, the next GetWriteBuffer of the
writer fails with InvalidSharedMemory. -/
theorem corruptIndexDetectionWitness :
    GetWriteBuffer { closed := false, shared := corruptWriteStartMem } =
      .err .invalidSharedMemory := by
  exact (corruptIndexDetection { closed := false, shared := corruptWriteStartMem }
    { blockIndex := 0, write := false, Data := [], cap := 0, Flags := [] }
    { blockIndex := 0, write := true, Data := [], cap := 0, Flags := [] }
    rfl).2.2.2.2.2.2.1 (by decide)

/-- C3: a buffer returned by GetWriteBuffer has empty payload of capacity
BlockSize; a buffer returned by GetReadBuffer has payload length equal to
the Size stored in the acquired block; and SendWriteBuffer stores into the
released block a Size equal to the length of the writer handle payload. -/
theorem bufferHandleShape (rw1 rw2 rw3 : ReadWriteCloser)
    (b1 b2 b3 : Buffer) (m1 m2 : SharedMem)
    (r3 : Nat × SharedMem × Option GoError)
    (hw : GetWriteBuffer rw1 = .ok b1 m1)
    (hr : GetReadBuffer rw2 = .ok b2 m2)
    (hsz : (rw2.shared.block rw2.shared.ReadStart).Size ≤
           (rw2.shared.block rw2.shared.ReadStart).Data.length)
    (hcl : rw3.closed = false) (hbw : b3.write = true)
    (hidx : b3.blockIndex < rw3.shared.blocks.length)
    (hs : SendWriteBuffer rw3 b3 = some r3) :
    b1.Data = [] ∧ b1.cap = rw1.shared.BlockSize ∧
    b2.Data.length = (rw2.shared.block rw2.shared.ReadStart).Size ∧
    (r3.2.1.block b3.blockIndex).Size = b3.Data.length := by
  refine ⟨?_, ?_, ?_, ?_⟩
  · unfold GetWriteBuffer at hw
    split at hw
    · exact absurd hw (by simp)
    · dsimp only at hw
      split at hw
      · exact absurd hw (by simp)
      · split at hw
        · exact absurd hw (by simp)
        · rcases hw with ⟨rfl, rfl⟩
          rfl
  · unfold GetWriteBuffer at hw
    split at hw
    · exact absurd hw (by simp)
    · dsimp only at hw
      split at hw
      · exact absurd hw (by simp)
      · split at hw
        · exact absurd hw (by simp)
        · rcases hw with ⟨rfl, rfl⟩
          rfl
  · unfold GetReadBuffer at hr
    split at hr
    · exact absurd hr (by simp)
    · dsimp only at hr
      split at hr
      · exact absurd hr (by simp)
      · split at hr
        · exact absurd hr (by simp)
        · rcases hr with ⟨rfl, rfl⟩
          simp [List.length_take]
          omega
  · unfold SendWriteBuffer at hs
    rw [if_neg (by simp [hcl]), if_neg (by simp [hbw])] at hs
    rw [Option.map_eq_some'] at hs
    obtain ⟨⟨mm, e⟩, hloop, hr3⟩ := hs
    have hpres := (sendWriteLoop_preserves _ _ _ _ hloop).1
    have hSize := (hpres.2.2.2.2.2 b3.blockIndex).2.2.1
    have hmark : ((markWrite rw3.shared b3).block b3.blockIndex).Size =
        b3.Data.length := by
      unfold markWrite
      rw [block_setBlock_self _ _ _ hidx]
    rw [← hr3]
    dsimp only
    rw [hSize, hmark]

/-- Witness for C3 at concrete inputs: on a fresh 4-block ring the write
lease is empty with capacity 64; on a ring with WriteEnd = 1 and Size 5 in
block 0 the read lease has length 5; releasing a write lease of 3 bytes on
block 1 stores Size 3. -/
theorem bufferHandleShapeWitness :
    ∃ (b1 b2 : Buffer) (m1 m2 : SharedMem)
      (r3 : Nat × SharedMem × Option GoError),
      GetWriteBuffer c3WriteRW = .ok b1 m1 ∧
      GetReadBuffer c3ReadRW = .ok b2 m2 ∧
      SendWriteBuffer c3WriteRW c3Buf = some r3 ∧
      b1.Data = [] ∧ b1.cap = 64 ∧ b2.Data.length = 5 ∧
      (r3.2.1.block 1).Size = 3 := by
  obtain ⟨r3, hs⟩ : ∃ r, SendWriteBuffer c3WriteRW c3Buf = some r := ⟨_, rfl⟩
  have hw : GetWriteBuffer c3WriteRW =
      .ok { blockIndex := 0, write := true, Data := [], cap := 64,
            Flags := List.replicate 8 0 }
         { initSimplex 4 64 with WriteStart := 1 } := by decide
  have hr : GetReadBuffer c3ReadRW =
      .ok { blockIndex := 0, write := false, Data := List.replicate 5 0,
            cap := 64, Flags := List.replicate 8 0 }
         { c3ReadMem with ReadStart := 1 } := by decide
  have h := bufferHandleShape c3WriteRW c3ReadRW c3WriteRW _ _ c3Buf _ _ r3
    hw hr (by decide) rfl rfl (by decide) hs
  exact ⟨_, _, _, _, r3, hw, hr, hs, h.1, h.2.1.trans (by decide),
    h.2.2.1.trans (by decide), h.2.2.2.trans (by decide)⟩

/-- C2: Write on an open endpoint whose ring is not full copies exactly
min(len p, BlockSize) bytes of p into the freshly acquired block, sets the
EOF bit (bit 0 of flag byte 0) of that block, publishes it through
SendWriteBuffer, and returns n = min(len p, BlockSize). -/
theorem writeTruncatesAndSetsEOF (rw : ReadWriteCloser) (p : List Nat)
    (hcl : rw.closed = false)
    (hv : rw.shared.WriteStart ≤ rw.shared.BlockCount)
    (hfull : (rw.shared.block rw.shared.WriteStart).Next ≠ rw.shared.ReadEnd)
    (hin : rw.shared.WriteStart < rw.shared.blocks.length)
    (hflags : 0 < (rw.shared.block rw.shared.WriteStart).Flags.length) :
    ∃ e m1, Write rw p = .ok (min p.length rw.shared.BlockSize) e m1 ∧
      (m1.block rw.shared.WriteStart).Size = min p.length rw.shared.BlockSize ∧
      (m1.block rw.shared.WriteStart).Data.take (min p.length rw.shared.BlockSize)
        = p.take (min p.length rw.shared.BlockSize) ∧
      hasEOFFlag (m1.block rw.shared.WriteStart).Flags = true := by
  have hget := getWriteBuffer_ok rw hcl hv hfull
  obtain ⟨m1, e, hsw, hpres⟩ := sendWriteBuffer_ok
    { closed := rw.closed,
      shared :=
        { ReadStart := rw.shared.ReadStart, ReadEnd := rw.shared.ReadEnd,
          WriteStart := (rw.shared.block rw.shared.WriteStart).Next,
          WriteEnd := rw.shared.WriteEnd, SemAvail := rw.shared.SemAvail,
          SemSignal := rw.shared.SemSignal, BlockCount := rw.shared.BlockCount,
          BlockSize := rw.shared.BlockSize, blocks := rw.shared.blocks } }
    { blockIndex := rw.shared.WriteStart, write := true,
      Data := List.take (min rw.shared.BlockSize p.length) p,
      cap := rw.shared.BlockSize,
      Flags := setEOFFlag (rw.shared.block rw.shared.WriteStart).Flags }
    hcl rfl
  dsimp only at hpres
  have hX := markWrite_block_self
    { ReadStart := rw.shared.ReadStart, ReadEnd := rw.shared.ReadEnd,
      WriteStart := (rw.shared.block rw.shared.WriteStart).Next,
      WriteEnd := rw.shared.WriteEnd, SemAvail := rw.shared.SemAvail,
      SemSignal := rw.shared.SemSignal, BlockCount := rw.shared.BlockCount,
      BlockSize := rw.shared.BlockSize, blocks := rw.shared.blocks }
    { blockIndex := rw.shared.WriteStart, write := true,
      Data := List.take (min rw.shared.BlockSize p.length) p,
      cap := rw.shared.BlockSize,
      Flags := setEOFFlag (rw.shared.block rw.shared.WriteStart).Flags }
    hin
  dsimp only at hX
  have hfield := hpres.2.2.2.2.2 rw.shared.WriteStart
  have hlen : (List.take (min rw.shared.BlockSize p.length) p).length =
      min p.length rw.shared.BlockSize := by
    simp [List.length_take]
    omega
  refine ⟨e, m1, ?_, ?_, ?_, ?_⟩
  · unfold Write
    rw [hget]
    dsimp only
    rw [hsw]
    dsimp only
    rw [Nat.min_comm rw.shared.BlockSize p.length]
  · rw [hfield.2.2.1, hX]
    dsimp only
    exact hlen
  · rw [hfield.2.2.2.1, hX]
    dsimp only
    rw [List.take_append_of_le_length (le_of_eq hlen.symm), List.take_take]
    congr 1
    omega
  · rw [hfield.2.2.2.2, hX]
    dsimp only
    exact hasEOFFlag_setEOFFlag _ hflags

/-- Witness for C2 at a concrete input: writing 70 bytes into a fresh ring
of 64-byte blocks is silently truncated to 64, the block carries Size 64,
the first 64 payload bytes, and the EOF bit. -/
theorem writeTruncatesAndSetsEOFWitness :
    ∃ e m1, Write c3WriteRW (List.replicate 70 9) = .ok 64 e m1 ∧
      (m1.block 0).Size = 64 ∧
      (m1.block 0).Data.take 64 = List.replicate 64 9 ∧
      hasEOFFlag (m1.block 0).Flags = true := by
  obtain ⟨e, m1, h1, h2, h3, h4⟩ := writeTruncatesAndSetsEOF c3WriteRW
    (List.replicate 70 9) rfl (by decide) (by decide) (by decide) (by decide)
  have hmin : min (List.replicate 70 9).length c3WriteRW.shared.BlockSize = 64 := by
    decide
  rw [hmin] at h1 h2 h3
  exact ⟨e, m1, h1, h2, h3.trans (by decide), h4⟩

/-- C10: when the source Read of a ReadFrom iteration returns bytes with a
nil error but the following SendWriteBuffer fails (here with
InvalidSharedMemory from a corrupt WriteEnd), ReadFrom returns the
accumulated byte count with a nil error: the release error is dropped
because the code returns the source read error instead. -/
theorem readFromDiscardsReleaseError (rw : ReadWriteCloser)
    (chunk : List Nat) (rest : List (List Nat × Option GoError))
    (hcl : rw.closed = false)
    (hv : rw.shared.WriteStart ≤ rw.shared.BlockCount)
    (hfull : (rw.shared.block rw.shared.WriteStart).Next ≠ rw.shared.ReadEnd)
    (hbad : rw.shared.WriteEnd > rw.shared.BlockCount) :
    ∃ m1 nr,
      SendWriteBuffer
        { closed := rw.closed,
          shared :=
            { ReadStart := rw.shared.ReadStart, ReadEnd := rw.shared.ReadEnd,
              WriteStart := (rw.shared.block rw.shared.WriteStart).Next,
              WriteEnd := rw.shared.WriteEnd, SemAvail := rw.shared.SemAvail,
              SemSignal := rw.shared.SemSignal,
              BlockCount := rw.shared.BlockCount,
              BlockSize := rw.shared.BlockSize, blocks := rw.shared.blocks } }
        { blockIndex := rw.shared.WriteStart, write := true,
          Data := List.take (min rw.shared.BlockSize chunk.length) chunk,
          cap := rw.shared.BlockSize,
          Flags := clearEOFFlag (rw.shared.block rw.shared.WriteStart).Flags } =
        some (nr, m1, some .invalidSharedMemory) ∧
      ReadFrom rw ((chunk, none) :: rest) =
        .ok (min rw.shared.BlockSize chunk.length) none m1 := by
  have hget := getWriteBuffer_ok rw hcl hv hfull
  have hsw := sendWriteBuffer_err
    { closed := rw.closed,
      shared :=
        { ReadStart := rw.shared.ReadStart, ReadEnd := rw.shared.ReadEnd,
          WriteStart := (rw.shared.block rw.shared.WriteStart).Next,
          WriteEnd := rw.shared.WriteEnd, SemAvail := rw.shared.SemAvail,
          SemSignal := rw.shared.SemSignal,
          BlockCount := rw.shared.BlockCount,
          BlockSize := rw.shared.BlockSize, blocks := rw.shared.blocks } }
    { blockIndex := rw.shared.WriteStart, write := true,
      Data := List.take (min rw.shared.BlockSize chunk.length) chunk,
      cap := rw.shared.BlockSize,
      Flags := clearEOFFlag (rw.shared.block rw.shared.WriteStart).Flags }
    hcl rfl hbad
  refine ⟨_, _, hsw, ?_⟩
  unfold ReadFrom
  rw [readFromLoop.eq_def]
  rw [hget]
  dsimp only
  rw [if_neg (by simp : ¬ ((none : Option GoError) = some GoError.eof))]
  rw [hsw]
  dsimp only
  rw [Nat.zero_add]

/-- Witness for C10 at a concrete input: on a 4-block ring whose WriteEnd a
peer corrupted to 5, ReadFrom of a source yielding 2 bytes with nil error
returns (2, nil) although the buffer release failed. -/
theorem readFromDiscardsReleaseErrorWitness :
    ∃ m1, ReadFrom
      { closed := false, shared := { initSimplex 4 64 with WriteEnd := 5 } }
      [([1, 2], none)] = .ok 2 none m1 := by
  obtain ⟨m1, nr, hsw, hrf⟩ := readFromDiscardsReleaseError
    { closed := false, shared := { initSimplex 4 64 with WriteEnd := 5 } }
    [1, 2] [] rfl (by decide) (by decide) (by decide)
  exact ⟨m1, by simpa using hrf⟩

/-- C1: round trip through the stream adaptor on one block of a fresh
simplex ring with blockCount 4 and blockSize 64: for any payload P with
0 < len P ≤ 64, Write of P succeeds with count len P, and a Read into a
buffer q with len q ≥ len P returns count len P together with io.EOF and
the first len P bytes of the destination equal P. -/
theorem writeReadRoundTripOneBlock (P q : List Nat)
    (h0 : 0 < P.length) (h1 : P.length ≤ 64) (hq : P.length ≤ q.length) :
    ∃ m1 m2 q1,
      Write { closed := false, shared := initSimplex 4 64 } P =
        .ok P.length none m1 ∧
      Read { closed := false, shared := m1 } q =
        .ok P.length q1 (some .eof) m2 ∧
      q1.take P.length = P := by
  rw [ring4_eq]
  have hn : min (64 : Nat) P.length = P.length := by omega
  have hn2 : min q.length P.length = P.length := by omega
  refine ⟨postWriteRing P, postReadRing P, P ++ q.drop P.length, ?_, ?_, ?_⟩
  · simp [Write, GetWriteBuffer, SendWriteBuffer, sendWriteLoop, markWrite,
      SharedMem.setBlock, SharedMem.block, ring4, postWriteRing, hn,
      setEOFFlag, List.getD, eofFlagIndex, eofFlagMask]
  · simp [Read, GetReadBuffer, SendReadBuffer, sendReadLoop, markRead,
      SharedMem.setBlock, SharedMem.block, postWriteRing, postReadRing, hn2,
      hasEOFFlag, List.getD, eofFlagIndex, eofFlagMask, List.take_left]
  · simp [List.take_left]

/-- Witness for C1 at the literal inputs of the spec scenario: payload
"hello" (5 bytes) through a fresh 4-by-64 ring, read into a 16-byte
buffer, yields (5, EOF) and the payload as prefix. -/
theorem writeReadRoundTripOneBlockWitness :
    ∃ m1 m2 q1,
      Write { closed := false, shared := initSimplex 4 64 }
        [104, 101, 108, 108, 111] = .ok 5 none m1 ∧
      Read { closed := false, shared := m1 } (List.replicate 16 0) =
        .ok 5 q1 (some .eof) m2 ∧
      q1.take 5 = [104, 101, 108, 108, 111] := by
  obtain ⟨m1, m2, q1, hw, hr, ht⟩ := writeReadRoundTripOneBlock
    [104, 101, 108, 108, 111] (List.replicate 16 0)
    (by decide) (by decide) (by decide)
  exact ⟨m1, m2, q1, by simpa using hw, by simpa using hr, by simpa using ht⟩

/-- C6: SendWriteBuffer on a valid write lease stores the payload length
into Size, sets DoneWrite, then advances WriteEnd over the contiguous run
of finished blocks, stopping with success at the first block whose
DoneWrite is not set; SemSignal is posted exactly once for each advanced
position j with j = ReadStart. -/
theorem sendWriteBufferCoalesce (rw : ReadWriteCloser) (buf : Buffer) (k : Nat)
    (hcl : rw.closed = false) (hbw : buf.write = true)
    (hWE : rw.shared.WriteEnd ≤ rw.shared.BlockCount)
    (hNext : ∀ b ∈ rw.shared.blocks, b.Next ≤ rw.shared.BlockCount)
    (hk : ∀ t < k, ((markWrite rw.shared buf).block
        (chainW (markWrite rw.shared buf) t)).DoneWrite = 1)
    (hstop : ((markWrite rw.shared buf).block
        (chainW (markWrite rw.shared buf) k)).DoneWrite ≠ 1) :
    ∃ m', SendWriteBuffer rw buf = some (buf.Data.length, m', none) ∧
      m'.WriteEnd = chainW (markWrite rw.shared buf) k ∧
      m'.SemSignal = rw.shared.SemSignal +
        (List.range k).countP
          (fun t => chainW (markWrite rw.shared buf) t = rw.shared.ReadStart) ∧
      ∀ t < k, (m'.block (chainW (markWrite rw.shared buf) t)).DoneWrite = 0 := by
  have hWEX : (markWrite rw.shared buf).WriteEnd = rw.shared.WriteEnd := rfl
  have hBCX : (markWrite rw.shared buf).BlockCount = rw.shared.BlockCount := rfl
  have hRSX : (markWrite rw.shared buf).ReadStart = rw.shared.ReadStart := rfl
  have hSSX : (markWrite rw.shared buf).SemSignal = rw.shared.SemSignal := rfl
  have hNextX : ∀ b ∈ (markWrite rw.shared buf).blocks,
      b.Next ≤ (markWrite rw.shared buf).BlockCount := by
    intro b hb
    rw [hBCX]
    have hb2 : b ∈ rw.shared.blocks.set buf.blockIndex
        { rw.shared.block buf.blockIndex with
          Size := buf.Data.length,
          Data := buf.Data ++
            (rw.shared.block buf.blockIndex).Data.drop buf.Data.length,
          Flags := buf.Flags, DoneWrite := 1 } := hb
    rcases List.mem_or_eq_of_mem_set hb2 with h | h
    · exact hNext _ h
    · subst h
      by_cases hidx : buf.blockIndex < rw.shared.blocks.length
      · have hg : (rw.shared.block buf.blockIndex).Next ≤ rw.shared.BlockCount :=
          hNext _ (block_mem _ _ hidx)
        exact hg
      · have hdef : rw.shared.block buf.blockIndex = defaultBlock :=
          block_out_of_range _ _ (by omega)
        have hg : (rw.shared.block buf.blockIndex).Next ≤ rw.shared.BlockCount := by
          rw [hdef]
          exact Nat.zero_le _
        exact hg
  have hkle : k ≤ (markWrite rw.shared buf).blocks.length :=
    chainW_bound _ k hk hstop
  obtain ⟨m', hloop, hwe, hss, hflags, _⟩ := sendWriteLoop_chain k
    ((markWrite rw.shared buf).blocks.length + 1) (markWrite rw.shared buf)
    hk hstop (by rw [hWEX, hBCX]; exact hWE) hNextX (by omega)
  refine ⟨m', ?_, hwe, ?_, hflags⟩
  · unfold SendWriteBuffer
    rw [if_neg (by simp [hcl]), if_neg (by simp [hbw])]
    dsimp only
    rw [hloop]
    rfl
  · rw [hss, hSSX]
    simp only [hRSX]

/-- C7: SendReadBuffer on a valid read lease sets DoneRead, then advances
ReadEnd over the contiguous run of consumed blocks, stopping with success
at the first block whose DoneRead is not set; SemAvail is posted exactly
once for each advanced block whose Prev equals WriteStart. -/
theorem sendReadBufferCoalesce (rw : ReadWriteCloser) (buf : Buffer) (k : Nat)
    (hcl : rw.closed = false) (hbw : buf.write = false)
    (hRE : rw.shared.ReadEnd ≤ rw.shared.BlockCount)
    (hNext : ∀ b ∈ rw.shared.blocks, b.Next ≤ rw.shared.BlockCount)
    (hk : ∀ t < k, ((markRead rw.shared buf).block
        (chainR (markRead rw.shared buf) t)).DoneRead = 1)
    (hstop : ((markRead rw.shared buf).block
        (chainR (markRead rw.shared buf) k)).DoneRead ≠ 1) :
    ∃ m', SendReadBuffer rw buf = some (m', none) ∧
      m'.ReadEnd = chainR (markRead rw.shared buf) k ∧
      m'.SemAvail = rw.shared.SemAvail +
        (List.range k).countP
          (fun t => ((markRead rw.shared buf).block
            (chainR (markRead rw.shared buf) t)).Prev = rw.shared.WriteStart) ∧
      ∀ t < k, (m'.block (chainR (markRead rw.shared buf) t)).DoneRead = 0 := by
  have hREX : (markRead rw.shared buf).ReadEnd = rw.shared.ReadEnd := rfl
  have hBCX : (markRead rw.shared buf).BlockCount = rw.shared.BlockCount := rfl
  have hWSX : (markRead rw.shared buf).WriteStart = rw.shared.WriteStart := rfl
  have hSAX : (markRead rw.shared buf).SemAvail = rw.shared.SemAvail := rfl
  have hNextX : ∀ b ∈ (markRead rw.shared buf).blocks,
      b.Next ≤ (markRead rw.shared buf).BlockCount := by
    intro b hb
    rw [hBCX]
    have hb2 : b ∈ rw.shared.blocks.set buf.blockIndex
        { rw.shared.block buf.blockIndex with DoneRead := 1 } := hb
    rcases List.mem_or_eq_of_mem_set hb2 with h | h
    · exact hNext _ h
    · subst h
      by_cases hidx : buf.blockIndex < rw.shared.blocks.length
      · have hg : (rw.shared.block buf.blockIndex).Next ≤ rw.shared.BlockCount :=
          hNext _ (block_mem _ _ hidx)
        exact hg
      · have hdef : rw.shared.block buf.blockIndex = defaultBlock :=
          block_out_of_range _ _ (by omega)
        have hg : (rw.shared.block buf.blockIndex).Next ≤ rw.shared.BlockCount := by
          rw [hdef]
          exact Nat.zero_le _
        exact hg
  have hkle : k ≤ (markRead rw.shared buf).blocks.length :=
    chainR_bound _ k hk hstop
  obtain ⟨m', hloop, hre, hsa, hflags, _⟩ := sendReadLoop_chain k
    ((markRead rw.shared buf).blocks.length + 1) (markRead rw.shared buf)
    hk hstop (by rw [hREX, hBCX]; exact hRE) hNextX (by omega)
  refine ⟨m', ?_, hre, ?_, hflags⟩
  · unfold SendReadBuffer
    rw [if_neg (by simp [hcl]), if_neg (by simp [hbw])]
    exact hloop
  · rw [hsa, hSAX]
    simp only [hWSX]

/-- Witness for C6 at a concrete input: releasing block 0 while block 1 is
already finished coalesces both, moving WriteEnd to 2 and posting SemSignal
once (for position 0 = ReadStart). -/
theorem sendWriteBufferCoalesceWitness :
    ∃ m', SendWriteBuffer { closed := false, shared := c6Mem } c6Buf =
        some (0, m', none) ∧
      m'.WriteEnd = 2 ∧ m'.SemSignal = 1 ∧
      (m'.block 0).DoneWrite = 0 ∧ (m'.block 1).DoneWrite = 0 := by
  obtain ⟨m', h1, h2, h3, h4⟩ := sendWriteBufferCoalesce
    { closed := false, shared := c6Mem } c6Buf 2 rfl rfl (by decide) (by decide)
    (by decide) (by decide)
  exact ⟨m', h1, h2.trans (by decide), h3.trans (by decide),
    h4 0 (by omega), h4 1 (by omega)⟩

/-- Witness for C7 at a concrete input: releasing block 0 while block 1 is
already consumed coalesces both, moving ReadEnd to 2 and posting SemAvail
once (for block 0 whose Prev equals WriteStart). -/
theorem sendReadBufferCoalesceWitness :
    ∃ m', SendReadBuffer { closed := false, shared := c7Mem } c7Buf =
        some (m', none) ∧
      m'.ReadEnd = 2 ∧ m'.SemAvail = 1 ∧
      (m'.block 0).DoneRead = 0 ∧ (m'.block 1).DoneRead = 0 := by
  obtain ⟨m', h1, h2, h3, h4⟩ := sendReadBufferCoalesce
    { closed := false, shared := c7Mem } c7Buf 2 rfl rfl (by decide) (by decide)
    (by decide) (by decide)
  exact ⟨m', h1, h2.trans (by decide), h3.trans (by decide),
    h4 0 (by omega), h4 1 (by omega)⟩

end Shm
